import Mathlib

/-!
# Tile addressing and sorted-set splitting of `TileSetLL.h`

A shallow embedding of `src/openscenegraph/osg_tileset/TileSetLL.h`:

* the bit-packed tile id of `TileLL` (`GetIdFromLevelXY`, `GetLevelXYFromId`,
  `getIdFromParentXY`), with `uint8_t`, `uint32_t` and `uint64_t` values as natural
  numbers reduced modulo `2 ^ 8`, `2 ^ 32` and `2 ^ 64`;
* the tile record itself, its two constructors and `getBounds`;
* `SplitSets`, with its three output vectors as explicit state: every write of the
  merge passes goes through an output position into a buffer, and a write past the end
  of the buffer makes the call fail (`none`);
* `TileSetLL` with its constructor and getters; its pure virtual `UpdateTileSet` has no
  body in the header and is modelled from the specification.

And of the integer part of `src/utils/ilim.hpp`: `ct_ui_pow`, the pixel traits, the
per-channel assignments `assign_r`, `assign_g`, `assign_b`, `assign_a` and `conv_pixels`.

Definitions come first, theorems after them.
-/

/-! ## Definitions -/

/-- Modelled from the spec: the header `GeometryUtils.h` that declares `GeoBounds` is not
part of the sources; the spec gives it as four scalars `minLon`, `maxLon`, `minLat`,
`maxLat`. The scalars are rationals here (exact arithmetic instead of `double`). -/
structure GeoBounds where
  minLon : ℚ
  maxLon : ℚ
  minLat : ℚ
  maxLat : ℚ
deriving DecidableEq

/-- The data members of `class TileLL` (TileSetLL.h:108-134). The raw `parent` pointer
and the four owning child pointers are optional tiles; `none` is `nullptr`. -/
inductive TileLL : Type
  | mk (id : Nat) (level : Nat) (x : Nat) (y : Nat) (bounds : GeoBounds)
      (parent : Option TileLL)
      (tile_LT : Option TileLL) (tile_LB : Option TileLL)
      (tile_RB : Option TileLL) (tile_RT : Option TileLL)
      (clip : Nat) (tile_px_res : Int)

namespace TileLL

/-- Member `id` (`uint64_t`). -/
def getId : TileLL → Nat
  | mk id _ _ _ _ _ _ _ _ _ _ _ => id

/-- Member `level` (`uint8_t`). -/
def getLevel : TileLL → Nat
  | mk _ level _ _ _ _ _ _ _ _ _ _ => level

/-- Member `x` (`uint32_t`). -/
def getX : TileLL → Nat
  | mk _ _ x _ _ _ _ _ _ _ _ _ => x

/-- Member `y` (`uint32_t`). -/
def getY : TileLL → Nat
  | mk _ _ _ y _ _ _ _ _ _ _ _ => y

/-- Member `bounds`. -/
def getTileBounds : TileLL → GeoBounds
  | mk _ _ _ _ bounds _ _ _ _ _ _ _ => bounds

/-- Member `parent`. -/
def getParent : TileLL → Option TileLL
  | mk _ _ _ _ _ parent _ _ _ _ _ _ => parent

/-- The four child slots `tile_LT`, `tile_LB`, `tile_RB`, `tile_RT`, in this order. -/
def getChildren : TileLL → List (Option TileLL)
  | mk _ _ _ _ _ _ lt lb rb rt _ _ => [lt, lb, rb, rt]

/-- Member `clip` (`uint8_t`). -/
def getClip : TileLL → Nat
  | mk _ _ _ _ _ _ _ _ _ _ clip _ => clip

/-- Member `tile_px_res` (`int64_t`). -/
def getTilePxRes : TileLL → Int
  | mk _ _ _ _ _ _ _ _ _ _ _ res => res

/-- Constant `k_clip_LT = 1 << 0` (TileSetLL.h:125). -/
def k_clip_LT : Nat := (1 <<< 0) % 2 ^ 8

/-- Constant `k_clip_LB = 1 << 1` (TileSetLL.h:126). -/
def k_clip_LB : Nat := (1 <<< 1) % 2 ^ 8

/-- Constant `k_clip_RB = 1 << 2` (TileSetLL.h:127). -/
def k_clip_RB : Nat := (1 <<< 2) % 2 ^ 8

/-- Constant `k_clip_RT = 1 << 3` (TileSetLL.h:128). -/
def k_clip_RT : Nat := (1 <<< 3) % 2 ^ 8

/-- Constant `k_clip_NONE = 0` (TileSetLL.h:129). -/
def k_clip_NONE : Nat := 0

/-- Constant `k_clip_ALL = 15` (TileSetLL.h:130). -/
def k_clip_ALL : Nat := 15

/-- The predicate `CompareLevelDescending` (TileSetLL.h:138-141): `a->level < b->level`. -/
def CompareLevelDescending (a b : TileLL) : Bool :=
  decide (a.getLevel < b.getLevel)

/-- The encoder `GetIdFromLevelXY` (TileSetLL.h:143-156). The arguments are reduced to
the parameter types `uint8_t`, `uint32_t`, `uint32_t`, widened to 64 bits, shifted
(truncating to 64 bits) and or-ed into the id. -/
def GetIdFromLevelXY (level x y : Nat) : Nat :=
  let level64 := (level % 2 ^ 8) % 2 ^ 64
  let x64 := (x % 2 ^ 32) % 2 ^ 64
  let y64 := (y % 2 ^ 32) % 2 ^ 64
  let tile_id := 0
  let tile_id := tile_id ||| ((level64 <<< 48) % 2 ^ 64)
  let tile_id := tile_id ||| ((x64 <<< 24) % 2 ^ 64)
  let tile_id := tile_id ||| y64
  tile_id

/-- The decoder `GetLevelXYFromId` (TileSetLL.h:158-166); the three reference parameters
it assigns are returned as a triple `(level, x, y)`. The casts truncate to `uint8_t`,
`uint32_t`, `uint32_t`. -/
def GetLevelXYFromId (id : Nat) : Nat × Nat × Nat :=
  let id := id % 2 ^ 64
  let level := (id >>> 48) % 2 ^ 8
  let x := ((id >>> 24) &&& 0xFFFFFF) % 2 ^ 32
  let y := (id &&& 0xFFFFFF) % 2 ^ 32
  (level, x, y)

/-- The private encoder `getIdFromParentXY` (TileSetLL.h:169-182). The level is `0` for a
null parent and otherwise `parent->level + 1`, computed in `int` (so it can reach `256`)
and widened to 64 bits. -/
def getIdFromParentXY (parent : Option TileLL) (x y : Nat) : Nat :=
  let level64 :=
    match parent with
    | none => 0
    | some p => (p.getLevel % 2 ^ 8 + 1) % 2 ^ 64
  let x64 := (x % 2 ^ 32) % 2 ^ 64
  let y64 := (y % 2 ^ 32) % 2 ^ 64
  let tile_id := 0
  let tile_id := tile_id ||| ((level64 <<< 48) % 2 ^ 64)
  let tile_id := tile_id ||| ((x64 <<< 24) % 2 ^ 64)
  let tile_id := tile_id ||| y64
  tile_id

/-- The bounds of a child, `getBounds` (TileSetLL.h:184-199), in exact arithmetic: the
code computes the four lines in `double`, and this definition is their reading over the
rationals, without the rounding of each operation. It stands for the code only in
statements made in exact arithmetic. The quadrant offsets `x - p->x*2` and `y - p->y*2`
are computed in `uint32_t`, so modulo `2 ^ 32`. -/
def getBounds (p : TileLL) (x y : Nat) : GeoBounds :=
  let lon_width : ℚ := (p.getTileBounds.maxLon - p.getTileBounds.minLon) * (1 / 2)
  let lat_width : ℚ := (p.getTileBounds.maxLat - p.getTileBounds.minLat) * (1 / 2)
  let dx : Nat := (x % 2 ^ 32 + 2 ^ 32 - (p.getX % 2 ^ 32 * 2) % 2 ^ 32) % 2 ^ 32
  let dy : Nat := (y % 2 ^ 32 + 2 ^ 32 - (p.getY % 2 ^ 32 * 2) % 2 ^ 32) % 2 ^ 32
  let minLon := p.getTileBounds.minLon + lon_width * (dx : ℚ)
  let maxLon := minLon + lon_width
  let minLat := p.getTileBounds.minLat + lat_width * (dy : ℚ)
  let maxLat := minLat + lat_width
  { minLon := minLon, maxLon := maxLon, minLat := minLat, maxLat := maxLat }

/-- The root tile constructor `TileLL(bounds, x, y)` (TileSetLL.h:68-82). -/
def newRoot (bounds : GeoBounds) (x y : Nat) : TileLL :=
  mk (getIdFromParentXY none x y) 0 (x % 2 ^ 32) (y % 2 ^ 32) bounds none
    none none none none k_clip_NONE (-10)

/-- The child tile constructor `TileLL(parent, x, y)` (TileSetLL.h:85-98); the member
`level` is `parent->level + 1` converted to `uint8_t`. -/
def newChild (parent : TileLL) (x y : Nat) : TileLL :=
  mk (getIdFromParentXY (some parent) x y) ((parent.getLevel % 2 ^ 8 + 1) % 2 ^ 8)
    (x % 2 ^ 32) (y % 2 ^ 32) (getBounds parent x y) (some parent)
    none none none none k_clip_NONE (-10)

end TileLL

/-- The `uint32_t` expression `x - p->x*2` of `getBounds` (TileSetLL.h:192), the
quadrant offset in longitude. -/
def TileLL.quadrantOffsetX (p : TileLL) (x : Nat) : Nat :=
  (x % 2 ^ 32 + 2 ^ 32 - (p.getX % 2 ^ 32 * 2) % 2 ^ 32) % 2 ^ 32

/-- The `uint32_t` expression `y - p->y*2` of `getBounds` (TileSetLL.h:195), the
quadrant offset in latitude. -/
def TileLL.quadrantOffsetY (p : TileLL) (y : Nat) : Nat :=
  (y % 2 ^ 32 + 2 ^ 32 - (p.getY % 2 ^ 32 * 2) % 2 ^ 32) % 2 ^ 32

/-- The closed rectangle of a bounds record: the point `(lon, lat)` lies in it. -/
def GeoBounds.contains (b : GeoBounds) (lon lat : ℚ) : Prop :=
  b.minLon ≤ lon ∧ lon ≤ b.maxLon ∧ b.minLat ≤ lat ∧ lat ≤ b.maxLat

instance (b : GeoBounds) (lon lat : ℚ) : Decidable (b.contains lon lat) :=
  inferInstanceAs (Decidable (_ ∧ _ ∧ _ ∧ _))

/-- The open rectangle (interior) of a bounds record. -/
def GeoBounds.interior (b : GeoBounds) (lon lat : ℚ) : Prop :=
  b.minLon < lon ∧ lon < b.maxLon ∧ b.minLat < lat ∧ lat < b.maxLat

instance (b : GeoBounds) (lon lat : ℚ) : Decidable (b.interior lon lat) :=
  inferInstanceAs (Decidable (_ ∧ _ ∧ _ ∧ _))

/-- The tile reached from the root at `(0, 0)` with bounds `[0, 1] × [0, 1]` by `n`
calls of the child constructor, each for the child at `(0, 0)`. -/
def TileLL.firstDescendant : Nat → TileLL
  | 0 => TileLL.newRoot { minLon := 0, maxLon := 1, minLat := 0, maxLat := 1 } 0 0
  | n + 1 => TileLL.newChild (TileLL.firstDescendant n) 0 0

/-- The rectangle of `c` lies within the rectangle of `b`. -/
def GeoBounds.within (c b : GeoBounds) : Prop :=
  b.minLon ≤ c.minLon ∧ c.maxLon ≤ b.maxLon ∧ b.minLat ≤ c.minLat ∧ c.maxLat ≤ b.maxLat

instance (c b : GeoBounds) : Decidable (c.within b) :=
  inferInstanceAs (Decidable (_ ∧ _ ∧ _ ∧ _))

/-- A sample root tile: bounds `[0, 4] × [0, 2]` at root grid position `(3, 5)`. -/
def TileLL.sampleRoot : TileLL :=
  TileLL.newRoot { minLon := 0, maxLon := 4, minLat := 0, maxLat := 2 } 3 5

/-- The call `v.resize(n)` of `std::vector`: the first `n` elements are kept and the
vector is padded with value-initialised elements up to length `n`. -/
def resize {T : Type} [Inhabited T] (v : List T) (n : Nat) : List T :=
  v.take n ++ List.replicate (n - v.length) default

/-- One write `*out++ = v` through an output iterator at index `out` of the buffer
`buf`; a write at or past the end of the buffer fails. -/
def put {T : Type} (buf : List T) (out : Nat) (v : T) : Option (List T × Nat) :=
  if out < buf.length then some (buf.set out v, out + 1) else none

/-- The call `std::copy(first, last, out)`: the range is written element by element. -/
def copy {T : Type} : List T → List T → Nat → Option (List T × Nat)
  | [], buf, out => some (buf, out)
  | a :: as, buf, out =>
    match put buf out a with
    | some (buf1, out1) => copy as buf1 out1
    | none => none

section Merge

variable {T : Type} [LinearOrder T]

/-- The standard algorithm `std::set_difference(first1, last1, first2, last2, out)`
called at TileSetLL.h:40 and :47. It is a function of the C++ standard library, embedded
as that library defines it: while both ranges are non-empty, write `*first1` and advance
range 1 if `*first1 < *first2`, else advance range 2 if `*first2 < *first1`, else advance
both; once range 2 is exhausted the rest of range 1 is copied. The ranges are lists, the
element type is any type with a linear order `<`, and the result is the buffer and the
returned output position. -/
def set_difference : List T → List T → List T → Nat → Option (List T × Nat)
  | [], _, buf, out => some (buf, out)
  | a :: as, [], buf, out => copy (a :: as) buf out
  | a :: as, b :: bs, buf, out =>
    if a < b then
      match put buf out a with
      | some (buf1, out1) => set_difference as (b :: bs) buf1 out1
      | none => none
    else if b < a then set_difference (a :: as) bs buf out
    else set_difference as bs buf out
termination_by a b => a.length + b.length

/-- The standard algorithm `std::set_intersection(first1, last1, first2, last2, out)`
called at TileSetLL.h:54. It is a function of the C++ standard library, embedded as that
library defines it: while both ranges are non-empty, advance range 1 if
`*first1 < *first2`, else advance range 2 if `*first2 < *first1`, else write `*first1`
and advance both. -/
def set_intersection : List T → List T → List T → Nat → Option (List T × Nat)
  | [], _, buf, out => some (buf, out)
  | _ :: _, [], buf, out => some (buf, out)
  | a :: as, b :: bs, buf, out =>
    if a < b then set_intersection as (b :: bs) buf out
    else if b < a then set_intersection (a :: as) bs buf out
    else
      match put buf out a with
      | some (buf1, out1) => set_intersection as bs buf1 out1
      | none => none
termination_by a b => a.length + b.length

/-- The function template `SplitSets` (TileSetLL.h:26-60). The last three arguments are
the contents of the output vectors before the call; the result is their contents after
it, `(list_diff_a, list_diff_b, list_xsec)`. Each merge pass starts writing at
`begin()` (index `0`) and the vector is then resized to `it - begin()`. -/
def SplitSets [Inhabited T]
    (sorted_list_a sorted_list_b list_diff_a list_diff_b list_xsec : List T) :
    Option (List T × List T × List T) := do
  let list_diff_a := resize list_diff_a sorted_list_a.length
  let list_diff_b := resize list_diff_b sorted_list_b.length
  let list_xsec := resize list_xsec (min sorted_list_a.length sorted_list_b.length)
  let (list_diff_a, it) ← set_difference sorted_list_a sorted_list_b list_diff_a 0
  let list_diff_a := resize list_diff_a (it - 0)
  let (list_diff_b, it) ← set_difference sorted_list_b sorted_list_a list_diff_b 0
  let list_diff_b := resize list_diff_b (it - 0)
  let (list_xsec, it) ← set_intersection sorted_list_a sorted_list_b list_xsec 0
  let list_xsec := resize list_xsec (it - 0)
  pure (list_diff_a, list_diff_b, list_xsec)

/-- The sequence of values that `set_difference` writes, in the order of the writes
(a proof device: the merge loop without the buffer). -/
def diffSeq : List T → List T → List T
  | [], _ => []
  | a :: as, [] => a :: as
  | a :: as, b :: bs =>
    if a < b then a :: diffSeq as (b :: bs)
    else if b < a then diffSeq (a :: as) bs
    else diffSeq as bs
termination_by a b => a.length + b.length

/-- The sequence of values that `set_intersection` writes, in the order of the writes
(a proof device: the merge loop without the buffer). -/
def xsecSeq : List T → List T → List T
  | [], _ => []
  | _ :: _, [] => []
  | a :: as, b :: bs =>
    if a < b then xsecSeq as (b :: bs)
    else if b < a then xsecSeq (a :: as) bs
    else a :: xsecSeq as bs
termination_by a b => a.length + b.length

end Merge

section Reference

variable {T : Type} [LinearOrder T]

/-- The single-pass algorithm `SortedSetDiff` in the words of the spec (section 4.4, the
classic three-way merge): with heads `a` and `b`, emit `a` to `onlyA` when `a < b`, emit
`b` to `onlyB` when `b < a`, otherwise emit to `both` and advance both; when one input is
exhausted the remaining tail of `A` goes to `onlyA` and that of `B` to `onlyB`. The
result is `(onlyA, onlyB, both)`. -/
def SortedSetDiff : List T → List T → List T × List T × List T
  | [], bs => ([], bs, [])
  | a :: as, [] => (a :: as, [], [])
  | a :: as, b :: bs =>
    if a < b then
      let r := SortedSetDiff as (b :: bs)
      (a :: r.1, r.2.1, r.2.2)
    else if b < a then
      let r := SortedSetDiff (a :: as) bs
      (r.1, b :: r.2.1, r.2.2)
    else
      let r := SortedSetDiff as bs
      (r.1, r.2.1, a :: r.2.2)
termination_by a b => a.length + b.length

end Reference

/-- The data members of `class TileSetLL` (TileSetLL.h:262-266). -/
structure TileSetLL where
  m_bounds : GeoBounds
  m_min_level : Nat
  m_max_level : Nat
  m_num_root_tiles_x : Nat
  m_num_root_tiles_y : Nat

namespace TileSetLL

/-- The constructor of `TileSetLL` (TileSetLL.h:208-220); the four numbers are `uint8_t`
parameters. -/
def create (bounds : GeoBounds) (min_level max_level num_root_tiles_x num_root_tiles_y : Nat) :
    TileSetLL :=
  { m_bounds := bounds
    m_min_level := min_level % 2 ^ 8
    m_max_level := max_level % 2 ^ 8
    m_num_root_tiles_x := num_root_tiles_x % 2 ^ 8
    m_num_root_tiles_y := num_root_tiles_y % 2 ^ 8 }

/-- The getter `GetBounds` (TileSetLL.h:227-230). -/
def GetBounds (ts : TileSetLL) : GeoBounds := ts.m_bounds

/-- The getter `GetMinLevel` (TileSetLL.h:234-237). -/
def GetMinLevel (ts : TileSetLL) : Nat := ts.m_min_level

/-- The getter `GetMaxLevel` (TileSetLL.h:239-242). -/
def GetMaxLevel (ts : TileSetLL) : Nat := ts.m_max_level

/-- The getter `GetNumRootTilesX` (TileSetLL.h:244-247). -/
def GetNumRootTilesX (ts : TileSetLL) : Nat := ts.m_num_root_tiles_x

/-- The getter `GetNumRootTilesY` (TileSetLL.h:249-252). -/
def GetNumRootTilesY (ts : TileSetLL) : Nat := ts.m_num_root_tiles_y

end TileSetLL

/-- Modelled from the spec: the error kinds of section 7. -/
inductive TileError : Type
  | InvalidCoordinate
  | AddressNotFound
  | PreconditionViolated
deriving DecidableEq

deriving instance DecidableEq for Except

/-- Modelled from the spec: `encode(level, x, y)` of section 4.1 with the rejection of
section 7. The precondition `level < 2^8`, `x, y < 2^24` is checked at the boundary and a
violation fails with `InvalidCoordinate`; inside it the packing is `GetIdFromLevelXY` of
the code, which has no such check of its own. -/
def TileAddress.encode (level x y : Nat) : Except TileError Nat :=
  if level < 2 ^ 8 ∧ x < 2 ^ 24 ∧ y < 2 ^ 24 then
    Except.ok (TileLL.GetIdFromLevelXY level x y)
  else Except.error TileError.InvalidCoordinate

/-- Modelled from the spec: `encode` of every tile of a list; the first coordinate out
of range makes the whole step fail. -/
def TileAddress.encodeAll : List (Nat × Nat × Nat) → Except TileError (List Nat)
  | [] => Except.ok []
  | (level, x, y) :: rest =>
    match TileAddress.encode level x y with
    | Except.error e => Except.error e
    | Except.ok id =>
      match TileAddress.encodeAll rest with
      | Except.error e => Except.error e
      | Except.ok ids => Except.ok (id :: ids)

/-- Modelled from the spec: the view collaborator that `UpdateTileSet` reads (the
`osg::Camera` of TileSetLL.h:256, not part of the sources). The spec (sections 4.5
and 6) treats its answers as opaque inputs, so a view is three arbitrary tests.
`intersects level x y`: the bounds of the tile `(level, x, y)` intersect the view.
`refine level x y`: the resolution the tile would project at asks for its children.
`changed id`: the metadata of a kept tile changed since it was last emitted. The bounds
of a tile are a function of `(level, x, y)`, so the tests take the tile coordinates. -/
structure View where
  intersects : Nat → Nat → Nat → Bool
  refine : Nat → Nat → Nat → Bool
  changed : Nat → Bool

namespace TileSetLL

/-- Modelled from the spec: the recursive refinement of step 1 of `UpdateTileSet`
(section 4.5) below the tile `(level, x, y)`; the first argument is the number of levels
left down to `maxLevel`, so no tile beyond `maxLevel` is ever visited. A tile outside
the view requires nothing. A tile is refined into its four children
`(2·x + quadrantX, 2·y + quadrantY)` when it lies below `minLevel` or the view asks for
it, as long as a level is left; otherwise it is a leaf. The spec calls the result "leaf
addresses" in section 4.5 and lists refined tiles together with their descendants in the
scenarios of section 8: `leavesOnly` chooses between the two readings. A tile below
`minLevel` is never reported. The result is the list of required tiles. -/
def visit (ts : TileSetLL) (view : View) (leavesOnly : Bool) :
    Nat → Nat → Nat → Nat → List (Nat × Nat × Nat)
  | 0, level, x, y =>
    if view.intersects level x y && decide (ts.GetMinLevel ≤ level) then [(level, x, y)]
    else []
  | remaining + 1, level, x, y =>
    if view.intersects level x y then
      if decide (level < ts.GetMinLevel) || view.refine level x y then
        (if leavesOnly || decide (level < ts.GetMinLevel) then [] else [(level, x, y)])
          ++ visit ts view leavesOnly remaining (level + 1) (2 * x) (2 * y)
          ++ visit ts view leavesOnly remaining (level + 1) (2 * x) (2 * y + 1)
          ++ visit ts view leavesOnly remaining (level + 1) (2 * x + 1) (2 * y)
          ++ visit ts view leavesOnly remaining (level + 1) (2 * x + 1) (2 * y + 1)
      else [(level, x, y)]
    else []

/-- Modelled from the spec: the required tiles of a view, the refinement started at
every root tile `(0, i, j)` of the `numRootTilesX × numRootTilesY` root grid. -/
def requiredTiles (ts : TileSetLL) (view : View) (leavesOnly : Bool) :
    List (Nat × Nat × Nat) :=
  (List.range ts.GetNumRootTilesX).flatMap fun i =>
    (List.range ts.GetNumRootTilesY).flatMap fun j =>
      ts.visit view leavesOnly ts.GetMaxLevel 0 i j

/-- Modelled from the spec: step 1 of `UpdateTileSet` (section 4.5), the required
address set: the addresses of the required tiles as a sorted, duplicate-free list, or
`InvalidCoordinate` when a required tile cannot be encoded. -/
def required (ts : TileSetLL) (view : View) (leavesOnly : Bool) : Except TileError (List Nat) :=
  match TileAddress.encodeAll (ts.requiredTiles view leavesOnly) with
  | Except.error e => Except.error e
  | Except.ok ids => Except.ok (List.insertionSort (· ≤ ·) ids.dedup)

/-- Modelled from the spec: `UpdateTileSet` (section 4.5) for the declaration at
TileSetLL.h:256-259, which is pure virtual and has no body in the sources. Step 1
computes the required set; a failure there fails the call and leaves everything as it
was (section 5). Step 3 runs `SplitSets previousResident required`: the tiles only in
the previous set are removed, the tiles only in the required set are added, and of the
tiles in both those whose metadata changed are updated; the required set becomes the
resident set. Creating and freeing tile nodes (steps 2 and 4) does not change the lists
and is left out. The result is
`(list_tiles_add, list_tiles_upd, list_tiles_rem, resident)`. -/
def UpdateTileSet (ts : TileSetLL) (view : View) (leavesOnly : Bool)
    (previousResident : List Nat) :
    Except TileError (List Nat × List Nat × List Nat × List Nat) :=
  match ts.required view leavesOnly with
  | Except.error e => Except.error e
  | Except.ok required =>
    match SplitSets previousResident required [] [] [] with
    | none => Except.error TileError.PreconditionViolated
    | some (onlyPrevious, onlyRequired, both) =>
      Except.ok (onlyRequired, both.filter view.changed, onlyPrevious, required)

/-- Modelled from the spec: the resident set after a sequence of `UpdateTileSet` calls,
one per view and in this order, starting from the resident set `resident`; a call that
fails leaves the resident set as it was (section 5). -/
def residentAfter (ts : TileSetLL) (leavesOnly : Bool) : List View → List Nat → List Nat
  | [], resident => resident
  | view :: views, resident =>
    match ts.UpdateTileSet view leavesOnly resident with
    | Except.ok r => residentAfter ts leavesOnly views r.2.2.2
    | Except.error _ => residentAfter ts leavesOnly views resident

end TileSetLL

/-- The hierarchy of the spec scenario (section 8): `minLevel = 0`, `maxLevel = 2`, a
`2 × 1` root grid, over the bounds `[0, 4] × [0, 2]`. -/
def TileSetLL.sample : TileSetLL :=
  TileSetLL.create { minLon := 0, maxLon := 4, minLat := 0, maxLat := 2 } 0 2 2 1

/-- A view over the left root tile `(0, 0)` that asks for one level of detail and
reports no metadata change. -/
def View.leftDetail : View :=
  { intersects := fun level x _ => decide (x < 2 ^ level)
    refine := fun level _ _ => decide (level < 1)
    changed := fun _ => false }

/-- A view over both root tiles that asks for no detail and reports a metadata change of
the tile with id `0`, the root tile `(0, 0)`. -/
def View.rootsOnly : View :=
  { intersects := fun _ _ _ => true
    refine := fun _ _ _ => false
    changed := fun id => decide (id = 0) }

/-- A hierarchy with one root tile and `minLevel = maxLevel = 26`. -/
def TileSetLL.deep : TileSetLL :=
  TileSetLL.create { minLon := 0, maxLon := 1, minLat := 0, maxLat := 1 } 26 26 1 1

/-- A view that follows the last column of the bottom row of tiles down the levels. -/
def View.lastColumn : View :=
  { intersects := fun level x y => decide (x + 1 = 2 ^ level) && decide (y = 0)
    refine := fun _ _ _ => false
    changed := fun _ => false }

namespace ilim_detail

/-- The function `ct_ui_pow` (ilim.hpp:104-107) on `uint64_t`: `1` when `exp == 0`, else
`base * ct_ui_pow(base, exp - 1)` truncated to 64 bits. The recursion on `exp - 1` is
the structural recursion on `exp`. -/
def ct_ui_pow (base : Nat) : Nat → Nat
  | 0 => 1
  | exp + 1 => ((base % 2 ^ 64) * ct_ui_pow base exp) % 2 ^ 64

end ilim_detail

namespace ilim

/-- The integer pixel types of `namespace ilim` (ilim.hpp:31-74). The floating-point
types `RGB32F`, `RGBA32F`, `RGBA64F` are outside this development. -/
inductive PixelFormat : Type
  | R8
  | R16
  | R32
  | RGB555
  | RGB565
  | RGB8
  | RGBA8
deriving DecidableEq

/-- A pixel value: one optional number per channel. `none` is a channel without a
value: a member the pixel struct does not have, or one not assigned yet. -/
structure Pixel where
  r : Option Nat
  g : Option Nat
  b : Option Nat
  a : Option Nat
deriving DecidableEq

end ilim

namespace ilim_detail

open ilim

/-- The members of `struct pixel_traits` (ilim.hpp:111-123). -/
structure pixel_traits where
  channel_count : Nat
  is_int_type : Bool
  single_bitdepth : Bool
  bits_r : Nat
  bits_g : Nat
  bits_b : Nat
  bits_a : Nat

/-- The specialisations of `pixel_traits` for the integer pixel types
(ilim.hpp:129-228). -/
def traits : PixelFormat → pixel_traits
  | .R8 => { channel_count := 1, is_int_type := true, single_bitdepth := true,
             bits_r := 8, bits_g := 0, bits_b := 0, bits_a := 0 }
  | .R16 => { channel_count := 1, is_int_type := true, single_bitdepth := true,
              bits_r := 16, bits_g := 0, bits_b := 0, bits_a := 0 }
  | .R32 => { channel_count := 1, is_int_type := true, single_bitdepth := true,
              bits_r := 32, bits_g := 0, bits_b := 0, bits_a := 0 }
  | .RGB555 => { channel_count := 3, is_int_type := true, single_bitdepth := false,
                 bits_r := 5, bits_g := 5, bits_b := 5, bits_a := 0 }
  | .RGB565 => { channel_count := 3, is_int_type := true, single_bitdepth := false,
                 bits_r := 5, bits_g := 6, bits_b := 5, bits_a := 0 }
  | .RGB8 => { channel_count := 3, is_int_type := true, single_bitdepth := true,
               bits_r := 8, bits_g := 8, bits_b := 8, bits_a := 0 }
  | .RGBA8 => { channel_count := 4, is_int_type := true, single_bitdepth := true,
                bits_r := 8, bits_g := 8, bits_b := 8, bits_a := 8 }

/-- The width in bits of `decltype(Pixel::r)`, the declared type of the member `r`
(ilim.hpp:31-74): `uint8_t`, `uint16_t` or `uint32_t`; a bit-field member is declared
`uint8_t`. -/
def type_bits_r : PixelFormat → Nat
  | .R8 => 8
  | .R16 => 16
  | .R32 => 32
  | .RGB555 => 8
  | .RGB565 => 8
  | .RGB8 => 8
  | .RGBA8 => 8

/-- The width in bits of the declared type of the members `g`, `b` and `a`: every
integer pixel type that has one declares it `uint8_t`. -/
def type_bits_gba : PixelFormat → Nat := fun _ => 8

/-- The enumeration `assign_mode` (ilim.hpp:274-282). -/
inductive assign_mode : Type
  | no_op
  | sub
  | int_to_float
  | float_to_int
  | float_to_float
  | upscale
  | downscale
deriving DecidableEq

/-- The constant `ct_ui_pow(2, bits) - 1` converted to a channel type of `type_bits`
bits, as in the declarations of `us_div` and `us_mul` (ilim.hpp:338-339). -/
def channel_max (bits type_bits : Nat) : Nat :=
  ((ct_ui_pow 2 bits + 2 ^ 64 - 1) % 2 ^ 64) % 2 ^ type_bits

/-- The constant `ds_shift`, a `uint8_t` (ilim.hpp:348). -/
def ds_shift (src_bits dst_bits : Nat) : Nat :=
  (src_bits % 2 ^ 8 + 2 ^ 8 - dst_bits % 2 ^ 8) % 2 ^ 8

/-- A store into a channel member of `bits` bits. -/
def store (bits value : Nat) : Option Nat := some (value % 2 ^ bits)

/-- The specialisations of `channel_r<mode>::assign` (ilim.hpp:286-351). The result is
the destination pixel after the call. Reading a source channel without a value fails,
and so do the three floating-point modes, which are outside this development. In
`upscale` the product `(us_mul/us_div)*src.r` is computed in `int` or `unsigned int`;
for the integer pixel types it stays below `2^32`, so only the store truncates. -/
def channel_r (mode : assign_mode) (PixelSrc PixelDst : PixelFormat) (src dst : Pixel) :
    Option Pixel :=
  match mode with
  | .no_op => some dst
  | .sub => some { dst with r := store (traits PixelDst).bits_r 0 }
  | .upscale =>
    let us_div := channel_max (traits PixelSrc).bits_r (type_bits_r PixelSrc)
    let us_mul := channel_max (traits PixelDst).bits_r (type_bits_r PixelDst)
    match src.r with
    | some v => some { dst with r := store (traits PixelDst).bits_r ((us_mul / us_div) * v) }
    | none => none
  | .downscale =>
    match src.r with
    | some v =>
      let shifted := v >>> ds_shift (traits PixelSrc).bits_r (traits PixelDst).bits_r
      some { dst with r := store (traits PixelDst).bits_r shifted }
    | none => none
  | _ => none

/-- The function `assign_r` (ilim.hpp:353-370): the mode is chosen from the traits, then
`channel_r<mode>::assign` is called. -/
def assign_r (PixelSrc PixelDst : PixelFormat) (src dst : Pixel) : Option Pixel :=
  let src_traits := traits PixelSrc
  let dst_traits := traits PixelDst
  let mode :=
    if dst_traits.bits_r = 0 then assign_mode.no_op
    else if src_traits.bits_r = 0 then assign_mode.sub
    else if src_traits.is_int_type && !dst_traits.is_int_type then assign_mode.int_to_float
    else if !src_traits.is_int_type && dst_traits.is_int_type then assign_mode.float_to_int
    else if !src_traits.is_int_type && !dst_traits.is_int_type then
      assign_mode.float_to_float
    else if dst_traits.bits_r > src_traits.bits_r then assign_mode.upscale
    else assign_mode.downscale
  channel_r mode PixelSrc PixelDst src dst

/-- The specialisations of `channel_g<mode>::assign` (ilim.hpp:374-431); the bodies of
`int_to_float` and `float_to_int` are empty and `float_to_float` is not declared. -/
def channel_g (mode : assign_mode) (PixelSrc PixelDst : PixelFormat) (src dst : Pixel) :
    Option Pixel :=
  match mode with
  | .no_op => some dst
  | .sub => some { dst with g := store (traits PixelDst).bits_g 0 }
  | .int_to_float => some dst
  | .float_to_int => some dst
  | .float_to_float => none
  | .upscale =>
    let us_div := channel_max (traits PixelSrc).bits_g (type_bits_gba PixelSrc)
    let us_mul := channel_max (traits PixelDst).bits_g (type_bits_gba PixelDst)
    match src.g with
    | some v => some { dst with g := store (traits PixelDst).bits_g ((us_mul / us_div) * v) }
    | none => none
  | .downscale =>
    match src.g with
    | some v =>
      let shifted := v >>> ds_shift (traits PixelSrc).bits_g (traits PixelDst).bits_g
      some { dst with g := store (traits PixelDst).bits_g shifted }
    | none => none

/-- The function `assign_g` (ilim.hpp:433-449). -/
def assign_g (PixelSrc PixelDst : PixelFormat) (src dst : Pixel) : Option Pixel :=
  let src_traits := traits PixelSrc
  let dst_traits := traits PixelDst
  let no_op := decide (dst_traits.bits_g = 0)
  let sub := decide (src_traits.bits_g = 0)
  let upscale := decide (dst_traits.bits_g > src_traits.bits_g)
  let mode :=
    if no_op then assign_mode.no_op
    else if sub then assign_mode.sub
    else if upscale then assign_mode.upscale else assign_mode.downscale
  channel_g mode PixelSrc PixelDst src dst

/-- The specialisations of `channel_b<mode>::assign` (ilim.hpp:453-510). -/
def channel_b (mode : assign_mode) (PixelSrc PixelDst : PixelFormat) (src dst : Pixel) :
    Option Pixel :=
  match mode with
  | .no_op => some dst
  | .sub => some { dst with b := store (traits PixelDst).bits_b 0 }
  | .int_to_float => some dst
  | .float_to_int => some dst
  | .float_to_float => none
  | .upscale =>
    let us_div := channel_max (traits PixelSrc).bits_b (type_bits_gba PixelSrc)
    let us_mul := channel_max (traits PixelDst).bits_b (type_bits_gba PixelDst)
    match src.b with
    | some v => some { dst with b := store (traits PixelDst).bits_b ((us_mul / us_div) * v) }
    | none => none
  | .downscale =>
    match src.b with
    | some v =>
      let shifted := v >>> ds_shift (traits PixelSrc).bits_b (traits PixelDst).bits_b
      some { dst with b := store (traits PixelDst).bits_b shifted }
    | none => none

/-- The function `assign_b` (ilim.hpp:512-528). -/
def assign_b (PixelSrc PixelDst : PixelFormat) (src dst : Pixel) : Option Pixel :=
  let src_traits := traits PixelSrc
  let dst_traits := traits PixelDst
  let no_op := decide (dst_traits.bits_b = 0)
  let sub := decide (src_traits.bits_b = 0)
  let upscale := decide (dst_traits.bits_b > src_traits.bits_b)
  let mode :=
    if no_op then assign_mode.no_op
    else if sub then assign_mode.sub
    else if upscale then assign_mode.upscale else assign_mode.downscale
  channel_b mode PixelSrc PixelDst src dst

/-- The specialisations of `channel_a<mode>::assign` (ilim.hpp:532-589); `sub` stores
`1`. -/
def channel_a (mode : assign_mode) (PixelSrc PixelDst : PixelFormat) (src dst : Pixel) :
    Option Pixel :=
  match mode with
  | .no_op => some dst
  | .sub => some { dst with a := store (traits PixelDst).bits_a 1 }
  | .int_to_float => some dst
  | .float_to_int => some dst
  | .float_to_float => none
  | .upscale =>
    let us_div := channel_max (traits PixelSrc).bits_a (type_bits_gba PixelSrc)
    let us_mul := channel_max (traits PixelDst).bits_a (type_bits_gba PixelDst)
    match src.a with
    | some v => some { dst with a := store (traits PixelDst).bits_a ((us_mul / us_div) * v) }
    | none => none
  | .downscale =>
    match src.a with
    | some v =>
      let shifted := v >>> ds_shift (traits PixelSrc).bits_a (traits PixelDst).bits_a
      some { dst with a := store (traits PixelDst).bits_a shifted }
    | none => none

/-- The function `assign_a` (ilim.hpp:591-607). -/
def assign_a (PixelSrc PixelDst : PixelFormat) (src dst : Pixel) : Option Pixel :=
  let src_traits := traits PixelSrc
  let dst_traits := traits PixelDst
  let no_op := decide (dst_traits.bits_a = 0)
  let sub := decide (src_traits.bits_a = 0)
  let upscale := decide (dst_traits.bits_a > src_traits.bits_a)
  let mode :=
    if no_op then assign_mode.no_op
    else if sub then assign_mode.sub
    else if upscale then assign_mode.upscale else assign_mode.downscale
  channel_a mode PixelSrc PixelDst src dst

/-- The body of the loop of `conv_pixels` (ilim.hpp:620-624): a fresh `dst`, no channel
of which has a value yet, gets its four channels assigned from `src`. -/
def conv_pixels_body (PixelSrc PixelDst : PixelFormat) (src : Pixel) : Option Pixel := do
  let dst : Pixel := { r := none, g := none, b := none, a := none }
  let dst ← assign_r PixelSrc PixelDst src dst
  let dst ← assign_g PixelSrc PixelDst src dst
  let dst ← assign_b PixelSrc PixelDst src dst
  let dst ← assign_a PixelSrc PixelDst src dst
  pure dst

/-- The loop of `conv_pixels` (ilim.hpp:619-627): the pixel made from each source pixel
is pushed to the back of `list_dst`. -/
def conv_pixels_loop (PixelSrc PixelDst : PixelFormat) :
    List Pixel → List Pixel → Option (List Pixel)
  | [], list_dst => some list_dst
  | src :: rest, list_dst => do
    let dst ← conv_pixels_body PixelSrc PixelDst src
    conv_pixels_loop PixelSrc PixelDst rest (list_dst ++ [dst])

/-- The function `conv_pixels` (ilim.hpp:611-628): `list_dst` is cleared, then the loop
runs over `list_src`. The result is `list_dst` after the call. -/
def conv_pixels (PixelSrc PixelDst : PixelFormat) (list_src list_dst : List Pixel) :
    Option (List Pixel) :=
  let list_dst : List Pixel := list_dst.take 0
  conv_pixels_loop PixelSrc PixelDst list_src list_dst

/-- A channel of `bits` bits holds a value: none when the pixel type has no such
channel (`bits = 0`), else a number below `2^bits`. -/
def channel_ok (bits : Nat) : Option Nat → Bool
  | none => decide (bits = 0)
  | some v => decide (bits ≠ 0) && decide (v < 2 ^ bits)

/-- A pixel is a value of the pixel type: each channel holds a value of its bit
depth. -/
def pixel_ok (fmt : PixelFormat) (p : Pixel) : Bool :=
  channel_ok (traits fmt).bits_r p.r && channel_ok (traits fmt).bits_g p.g
    && channel_ok (traits fmt).bits_b p.b && channel_ok (traits fmt).bits_a p.a

/-- The channel conversion in the words of claim C24: from depth `s` to depth `d`, the
upscale `((2^d - 1) / (2^s - 1)) * v` with integer division when `d > s`, the downscale
`v >> (s - d)` when `d ≤ s`. -/
def scaled (s d v : Nat) : Nat :=
  if d > s then ((2 ^ d - 1) / (2 ^ s - 1)) * v else v >>> (s - d)

end ilim_detail

/-- Lexicographic order on `(level, x, y)` triples. -/
def lexLt (p q : Nat × Nat × Nat) : Prop :=
  p.1 < q.1 ∨ (p.1 = q.1 ∧ (p.2.1 < q.2.1 ∨ (p.2.1 = q.2.1 ∧ p.2.2 < q.2.2)))

/-! ## The tile id codec -/

theorem or_shift_eq_add (a b i : Nat) (hb : b < 2 ^ i) :
    (a <<< i) ||| b = a * 2 ^ i + b := by
  rw [Nat.shiftLeft_eq, Nat.mul_comm, ← Nat.mul_add_lt_is_or hb]

/-- On in-range arguments the packed id is the positional number
`level * 2^48 + x * 2^24 + y`. -/
theorem GetIdFromLevelXY_eq_add (level x y : Nat) (hl : level < 2 ^ 8) (hx : x < 2 ^ 24)
    (hy : y < 2 ^ 24) :
    TileLL.GetIdFromLevelXY level x y = level * 2 ^ 48 + x * 2 ^ 24 + y := by
  have h1 : level % 2 ^ 8 % 2 ^ 64 = level := by omega
  have h2 : x % 2 ^ 32 % 2 ^ 64 = x := by omega
  have h3 : y % 2 ^ 32 % 2 ^ 64 = y := by omega
  have h4 : (level <<< 48) % 2 ^ 64 = level <<< 48 := by
    rw [Nat.shiftLeft_eq]; omega
  have h5 : (x <<< 24) % 2 ^ 64 = x <<< 24 := by
    rw [Nat.shiftLeft_eq]; omega
  have h6 : x <<< 24 ||| y = x * 2 ^ 24 + y := or_shift_eq_add x y 24 hy
  have h7 : level <<< 48 ||| (x * 2 ^ 24 + y) = level * 2 ^ 48 + (x * 2 ^ 24 + y) :=
    or_shift_eq_add level _ 48 (by omega)
  simp only [TileLL.GetIdFromLevelXY, h1, h2, h3, h4, h5, Nat.zero_or, Nat.lor_assoc, h6, h7]
  omega

/-- The decoder as quotients and remainders. -/
theorem GetLevelXYFromId_eq_div (id : Nat) :
    TileLL.GetLevelXYFromId id
      = (id % 2 ^ 64 / 2 ^ 48 % 2 ^ 8, id % 2 ^ 64 / 2 ^ 24 % 2 ^ 24, id % 2 ^ 24) := by
  have hm : (0xFFFFFF : Nat) = 2 ^ 24 - 1 := by norm_num
  simp only [TileLL.GetLevelXYFromId, hm, Nat.and_pow_two_sub_one_eq_mod,
    Nat.shiftRight_eq_div_pow]
  refine Prod.ext ?_ (Prod.ext ?_ ?_) <;> simp only <;> omega

/-- Every id the encoder returns has its top eight (placeholder) bits clear. -/
theorem GetIdFromLevelXY_lt (level x y : Nat) : TileLL.GetIdFromLevelXY level x y < 2 ^ 56 := by
  have h1 : ((level % 2 ^ 8 % 2 ^ 64) <<< 48) % 2 ^ 64 < 2 ^ 56 := by
    rw [Nat.shiftLeft_eq]; omega
  have h2 : ((x % 2 ^ 32 % 2 ^ 64) <<< 24) % 2 ^ 64 < 2 ^ 56 := by
    rw [Nat.shiftLeft_eq]; omega
  have h3 : y % 2 ^ 32 % 2 ^ 64 < 2 ^ 56 := by omega
  simp only [TileLL.GetIdFromLevelXY, Nat.zero_or]
  exact Nat.or_lt_two_pow (Nat.or_lt_two_pow h1 h2) h3

/-- C1. Decoding an encoded address gives the address back: for every `level < 2^8` and
every `x, y < 2^24`, `GetLevelXYFromId (GetIdFromLevelXY level x y) = (level, x, y)`. -/
theorem C1_decode_encode (level x y : Nat) (hl : level < 2 ^ 8) (hx : x < 2 ^ 24)
    (hy : y < 2 ^ 24) :
    TileLL.GetLevelXYFromId (TileLL.GetIdFromLevelXY level x y) = (level, x, y) := by
  rw [GetLevelXYFromId_eq_div, GetIdFromLevelXY_eq_add level x y hl hx hy]
  refine Prod.ext ?_ (Prod.ext ?_ ?_) <;> simp only <;> omega

theorem C1_decode_encode_witness :
    (200 < 2 ^ 8 ∧ 16777215 < 2 ^ 24 ∧ 70000 < 2 ^ 24) ∧
      TileLL.GetLevelXYFromId (TileLL.GetIdFromLevelXY 200 16777215 70000)
        = (200, 16777215, 70000) :=
  ⟨by decide, C1_decode_encode 200 16777215 70000 (by decide) (by decide) (by decide)⟩

/-- C2. Encoding a decoded id gives the id back: for every id `a < 2^56` (top eight
placeholder bits zero), `GetIdFromLevelXY` applied to the `(level, x, y)` that
`GetLevelXYFromId a` returns equals `a`. -/
theorem C2_encode_decode (a : Nat) (ha : a < 2 ^ 56) :
    TileLL.GetIdFromLevelXY (TileLL.GetLevelXYFromId a).1 (TileLL.GetLevelXYFromId a).2.1
      (TileLL.GetLevelXYFromId a).2.2 = a := by
  rw [GetLevelXYFromId_eq_div]
  simp only
  rw [GetIdFromLevelXY_eq_add _ _ _ (Nat.mod_lt _ (by norm_num)) (Nat.mod_lt _ (by norm_num))
    (Nat.mod_lt _ (by norm_num))]
  omega

theorem C2_encode_decode_witness :
    72057594037927935 < 2 ^ 56 ∧
      TileLL.GetIdFromLevelXY (TileLL.GetLevelXYFromId 72057594037927935).1
        (TileLL.GetLevelXYFromId 72057594037927935).2.1
        (TileLL.GetLevelXYFromId 72057594037927935).2.2 = 72057594037927935 :=
  ⟨by decide, C2_encode_decode 72057594037927935 (by decide)⟩

/-- C3. The packed id is an order-preserving sort key: for levels below `2^8` and
coordinates below `2^24`, one id is numerically smaller than another (both are below
`2^64`, so this is the unsigned 64-bit comparison) exactly when its `(level, x, y)` is
lexicographically smaller. -/
theorem C3_id_order_is_lex (l1 x1 y1 l2 x2 y2 : Nat)
    (hl1 : l1 < 2 ^ 8) (hx1 : x1 < 2 ^ 24) (hy1 : y1 < 2 ^ 24)
    (hl2 : l2 < 2 ^ 8) (hx2 : x2 < 2 ^ 24) (hy2 : y2 < 2 ^ 24) :
    (TileLL.GetIdFromLevelXY l1 x1 y1 < 2 ^ 64 ∧ TileLL.GetIdFromLevelXY l2 x2 y2 < 2 ^ 64) ∧
      (TileLL.GetIdFromLevelXY l1 x1 y1 < TileLL.GetIdFromLevelXY l2 x2 y2
        ↔ lexLt (l1, x1, y1) (l2, x2, y2)) := by
  rw [GetIdFromLevelXY_eq_add l1 x1 y1 hl1 hx1 hy1, GetIdFromLevelXY_eq_add l2 x2 y2 hl2 hx2 hy2]
  simp only [lexLt]
  omega

theorem C3_id_order_is_lex_witness :
    (1 < 2 ^ 8 ∧ 16777215 < 2 ^ 24 ∧ 16777215 < 2 ^ 24 ∧ 2 < 2 ^ 8 ∧ 0 < 2 ^ 24 ∧ 0 < 2 ^ 24) ∧
      (TileLL.GetIdFromLevelXY 1 16777215 16777215 < 2 ^ 64 ∧
        TileLL.GetIdFromLevelXY 2 0 0 < 2 ^ 64) ∧
      (TileLL.GetIdFromLevelXY 1 16777215 16777215 < TileLL.GetIdFromLevelXY 2 0 0
        ↔ lexLt (1, 16777215, 16777215) (2, 0, 0)) :=
  ⟨by decide, C3_id_order_is_lex 1 16777215 16777215 2 0 0 (by decide) (by decide) (by decide)
    (by decide) (by decide) (by decide)⟩

/-- C4. The encoding is injective on valid coordinates: for levels below `2^8` and
coordinates below `2^24`, two ids are equal exactly when level, x and y all match. -/
theorem C4_id_eq_iff (l1 x1 y1 l2 x2 y2 : Nat)
    (hl1 : l1 < 2 ^ 8) (hx1 : x1 < 2 ^ 24) (hy1 : y1 < 2 ^ 24)
    (hl2 : l2 < 2 ^ 8) (hx2 : x2 < 2 ^ 24) (hy2 : y2 < 2 ^ 24) :
    TileLL.GetIdFromLevelXY l1 x1 y1 = TileLL.GetIdFromLevelXY l2 x2 y2
      ↔ l1 = l2 ∧ x1 = x2 ∧ y1 = y2 := by
  rw [GetIdFromLevelXY_eq_add l1 x1 y1 hl1 hx1 hy1, GetIdFromLevelXY_eq_add l2 x2 y2 hl2 hx2 hy2]
  omega

theorem C4_id_eq_iff_witness :
    (3 < 2 ^ 8 ∧ 5 < 2 ^ 24 ∧ 7 < 2 ^ 24 ∧ 3 < 2 ^ 8 ∧ 7 < 2 ^ 24 ∧ 5 < 2 ^ 24) ∧
      (TileLL.GetIdFromLevelXY 3 5 7 = TileLL.GetIdFromLevelXY 3 7 5 ↔ 3 = 3 ∧ 5 = 7 ∧ 7 = 5) :=
  ⟨by decide, C4_id_eq_iff 3 5 7 3 7 5 (by decide) (by decide) (by decide) (by decide)
    (by decide) (by decide)⟩

/-- C5, as the claim states it, fails: called with `level = 0`, `x = 2^24` (out of
range), `y = 0`, the encoder does not fail but returns the id `2^48`, which decodes to
`(1, 0, 0)` and not to the arguments `(0, 2^24, 0)`. -/
theorem C5_not_rejected :
    2 ^ 24 ≤ 16777216 ∧
      TileLL.GetIdFromLevelXY 0 16777216 0 = 281474976710656 ∧
      TileLL.GetLevelXYFromId (TileLL.GetIdFromLevelXY 0 16777216 0) = (1, 0, 0) ∧
      TileLL.GetLevelXYFromId (TileLL.GetIdFromLevelXY 0 16777216 0) ≠ (0, 16777216, 0) := by
  decide

/-- C5, amended. The encoder checks no range and never fails: for every `uint8_t` level
and all `uint32_t` x and y it returns an id, that id is below `2^56` (the placeholder
bits stay clear), and the id decodes back to `(level, x, y)` exactly when `x < 2^24` and
`y < 2^24`; staying in range is the obligation of the caller. -/
theorem C5_encoder_unchecked (level x y : Nat) (hl : level < 2 ^ 8) (hx : x < 2 ^ 32)
    (hy : y < 2 ^ 32) :
    TileLL.GetIdFromLevelXY level x y < 2 ^ 56 ∧
      (TileLL.GetLevelXYFromId (TileLL.GetIdFromLevelXY level x y) = (level, x, y)
        ↔ x < 2 ^ 24 ∧ y < 2 ^ 24) := by
  refine ⟨GetIdFromLevelXY_lt level x y, ?_, ?_⟩
  · intro h
    rw [GetLevelXYFromId_eq_div] at h
    have h2 := congrArg (fun t => t.2.1) h
    have h3 := congrArg (fun t => t.2.2) h
    simp only at h2 h3
    omega
  · rintro ⟨h1, h2⟩
    rw [GetLevelXYFromId_eq_div, GetIdFromLevelXY_eq_add level x y hl h1 h2]
    refine Prod.ext ?_ (Prod.ext ?_ ?_) <;> simp only <;> omega

theorem C5_encoder_unchecked_witness :
    (255 < 2 ^ 8 ∧ 4294967295 < 2 ^ 32 ∧ 3 < 2 ^ 32) ∧
      TileLL.GetIdFromLevelXY 255 4294967295 3 < 2 ^ 56 ∧
      (TileLL.GetLevelXYFromId (TileLL.GetIdFromLevelXY 255 4294967295 3) = (255, 4294967295, 3)
        ↔ 4294967295 < 2 ^ 24 ∧ 3 < 2 ^ 24) :=
  ⟨by decide, C5_encoder_unchecked 255 4294967295 3 (by decide) (by decide) (by decide)⟩

/-! ## The merge passes and the sequences they write -/

theorem put_spec {T : Type} (buf : List T) (out : Nat) (v : T) (h : out < buf.length) :
    ∃ buf1, put buf out v = some (buf1, out + 1) ∧ buf1.length = buf.length ∧
      buf1.take (out + 1) = buf.take out ++ [v] := by
  refine ⟨buf.set out v, by simp [put, h], by simp, ?_⟩
  rw [List.take_succ, List.set_take, List.set_eq_of_length_le (by simp)]
  simp [h]

theorem copy_spec {T : Type} (as buf : List T) (out : Nat) (h : out + as.length ≤ buf.length) :
    ∃ buf1, copy as buf out = some (buf1, out + as.length) ∧ buf1.length = buf.length ∧
      buf1.take (out + as.length) = buf.take out ++ as := by
  induction as generalizing buf out with
  | nil => exact ⟨buf, by simp [copy]⟩
  | cons a as ih =>
    simp only [List.length_cons] at h
    obtain ⟨b1, hp, hl, ht⟩ := put_spec buf out a (by omega)
    obtain ⟨b2, hc, hl2, ht2⟩ := ih b1 (out + 1) (by omega)
    refine ⟨b2, ?_, by omega, ?_⟩
    · simp only [copy, hp, hc, List.length_cons]
      rw [show out + (as.length + 1) = out + 1 + as.length by omega]
    · have e : out + (a :: as).length = out + 1 + as.length := by simp; omega
      rw [e, ht2, ht]; simp

theorem resize_length {T : Type} [Inhabited T] (v : List T) (n : Nat) : (resize v n).length = n := by
  simp only [resize, List.length_append, List.length_take, List.length_replicate]; omega

theorem resize_of_le {T : Type} [Inhabited T] (v : List T) (n : Nat) (h : n ≤ v.length) :
    resize v n = v.take n := by
  simp [resize, Nat.sub_eq_zero_of_le h]

section MergeLemmas

variable {T : Type} [LinearOrder T]

theorem diffSeq_length_le (a b : List T) : (diffSeq a b).length ≤ a.length := by
  induction a, b using diffSeq.induct with
  | case1 => simp [diffSeq]
  | case2 => simp [diffSeq]
  | case3 a as b bs h ih => simp only [diffSeq, h, if_true, List.length_cons]; omega
  | case4 a as b bs h1 h2 ih => simpa only [diffSeq, h1, h2, if_true, if_false] using ih
  | case5 a as b bs h1 h2 ih =>
    simp only [diffSeq, h1, h2, if_false, List.length_cons]; omega

theorem set_difference_spec (a b buf : List T) (out : Nat) (h : out + a.length ≤ buf.length) :
    ∃ buf1, set_difference a b buf out = some (buf1, out + (diffSeq a b).length) ∧
      buf1.length = buf.length ∧
      buf1.take (out + (diffSeq a b).length) = buf.take out ++ diffSeq a b := by
  induction a, b using diffSeq.induct generalizing buf out with
  | case1 => exact ⟨buf, by simp [set_difference, diffSeq]⟩
  | case2 a as =>
    obtain ⟨b1, hc, hl, ht⟩ := copy_spec (a :: as) buf out h
    exact ⟨b1, by simpa [set_difference, diffSeq] using hc, hl, by simpa [diffSeq] using ht⟩
  | case3 a as b bs hab ih =>
    simp only [List.length_cons] at h
    obtain ⟨b1, hp, hl, ht⟩ := put_spec buf out a (by omega)
    obtain ⟨b2, hc, hl2, ht2⟩ := ih b1 (out + 1) (by omega)
    have e : out + (diffSeq (a :: as) (b :: bs)).length
        = out + 1 + (diffSeq as (b :: bs)).length := by
      simp only [diffSeq, hab, if_true, List.length_cons]; omega
    refine ⟨b2, ?_, by omega, ?_⟩
    · rw [e]; simp only [set_difference, hab, if_true, hp, hc]
    · rw [e, ht2, ht]; simp [diffSeq, hab]
  | case4 a as b bs h1 h2 ih =>
    obtain ⟨b1, hc, hl, ht⟩ := ih buf out h
    refine ⟨b1, ?_, hl, ?_⟩
    · simpa only [set_difference, diffSeq, h1, h2, if_true, if_false] using hc
    · simpa only [diffSeq, h1, h2, if_true, if_false] using ht
  | case5 a as b bs h1 h2 ih =>
    simp only [List.length_cons] at h
    obtain ⟨b1, hc, hl, ht⟩ := ih buf out (by omega)
    refine ⟨b1, ?_, hl, ?_⟩
    · simpa only [set_difference, diffSeq, h1, h2, if_true, if_false] using hc
    · simpa only [diffSeq, h1, h2, if_true, if_false] using ht

theorem xsecSeq_length_le (a b : List T) :
    (xsecSeq a b).length ≤ min a.length b.length := by
  induction a, b using xsecSeq.induct with
  | case1 => simp [xsecSeq]
  | case2 => simp [xsecSeq]
  | case3 a as b bs h ih =>
    simp only [xsecSeq, h, if_true, List.length_cons] at ih ⊢; omega
  | case4 a as b bs h1 h2 ih =>
    simp only [xsecSeq, h1, h2, if_true, if_false, List.length_cons] at ih ⊢; omega
  | case5 a as b bs h1 h2 ih =>
    simp only [xsecSeq, h1, h2, if_false, List.length_cons] at ih ⊢; omega

theorem set_intersection_spec (a b buf : List T) (out : Nat)
    (h : out + min a.length b.length ≤ buf.length) :
    ∃ buf1, set_intersection a b buf out = some (buf1, out + (xsecSeq a b).length) ∧
      buf1.length = buf.length ∧
      buf1.take (out + (xsecSeq a b).length) = buf.take out ++ xsecSeq a b := by
  induction a, b using xsecSeq.induct generalizing buf out with
  | case1 => exact ⟨buf, by simp [set_intersection, xsecSeq]⟩
  | case2 => exact ⟨buf, by simp [set_intersection, xsecSeq]⟩
  | case3 a as b bs hab ih =>
    simp only [List.length_cons] at h
    obtain ⟨b1, hc, hl, ht⟩ := ih buf out (by simp only [List.length_cons]; omega)
    refine ⟨b1, ?_, hl, ?_⟩
    · simpa only [set_intersection, xsecSeq, hab, if_true] using hc
    · simpa only [xsecSeq, hab, if_true] using ht
  | case4 a as b bs h1 h2 ih =>
    simp only [List.length_cons] at h
    obtain ⟨b1, hc, hl, ht⟩ := ih buf out (by simp only [List.length_cons]; omega)
    refine ⟨b1, ?_, hl, ?_⟩
    · simpa only [set_intersection, xsecSeq, h1, h2, if_true, if_false] using hc
    · simpa only [xsecSeq, h1, h2, if_true, if_false] using ht
  | case5 a as b bs h1 h2 ih =>
    simp only [List.length_cons] at h
    obtain ⟨b1, hp, hl, ht⟩ := put_spec buf out a (by omega)
    obtain ⟨b2, hc, hl2, ht2⟩ := ih b1 (out + 1) (by omega)
    have e : out + (xsecSeq (a :: as) (b :: bs)).length
        = out + 1 + (xsecSeq as bs).length := by
      simp only [xsecSeq, h1, h2, if_false, List.length_cons]; omega
    refine ⟨b2, ?_, by omega, ?_⟩
    · rw [e]; simp only [set_intersection, h1, h2, if_false, hp, hc]
    · rw [e, ht2, ht]; simp [xsecSeq, h1, h2]

theorem SplitSets_eq [Inhabited T] (A B da db xs : List T) :
    SplitSets A B da db xs = some (diffSeq A B, diffSeq B A, xsecSeq A B) := by
  obtain ⟨b1, h1, l1, t1⟩ := set_difference_spec A B (resize da A.length) 0
    (by rw [resize_length]; omega)
  obtain ⟨b2, h2, l2, t2⟩ := set_difference_spec B A (resize db B.length) 0
    (by rw [resize_length]; omega)
  obtain ⟨b3, h3, l3, t3⟩ := set_intersection_spec A B (resize xs (min A.length B.length)) 0
    (by rw [resize_length]; omega)
  have k1 := diffSeq_length_le A B
  have k2 := diffSeq_length_le B A
  have k3 := xsecSeq_length_le A B
  rw [resize_length] at l1 l2 l3
  simp only [List.take_zero, List.nil_append] at t1 t2 t3
  simp only [SplitSets, h1, h2, h3, Option.bind_eq_bind, Option.some_bind, Option.pure_def,
    Nat.sub_zero]
  rw [resize_of_le _ _ (by omega), resize_of_le _ _ (by omega), resize_of_le _ _ (by omega),
    t1, t2, t3]

theorem diffSeq_sorted (a b : List T) (ha : a.Sorted (· < ·)) (hb : b.Sorted (· < ·)) :
    diffSeq a b = a.filter (fun v => decide (v ∉ b)) := by
  induction a, b using diffSeq.induct with
  | case1 => simp [diffSeq]
  | case2 a as => simp [diffSeq]
  | case3 a as b bs hab ih =>
    have hbs := List.sorted_cons.1 hb
    have hna : a ∉ b :: bs := by
      intro hm
      rcases List.mem_cons.1 hm with h | h
      · exact absurd hab (h ▸ lt_irrefl a)
      · exact absurd (lt_trans hab (hbs.1 a h)) (lt_irrefl a)
    rw [diffSeq, if_pos hab, ih (List.sorted_cons.1 ha).2 hb, List.filter_cons_of_pos (by simpa using hna)]
  | case4 a as b bs h1 h2 ih =>
    rw [diffSeq, if_neg h1, if_pos h2, ih ha (List.sorted_cons.1 hb).2]
    apply List.filter_congr
    intro v hv
    have hbv : b < v := by
      rcases List.mem_cons.1 hv with h | h
      · exact h ▸ h2
      · exact lt_trans h2 ((List.sorted_cons.1 ha).1 v h)
    have : v ≠ b := ne_of_gt hbv
    simp [this]
  | case5 a as b bs h1 h2 ih =>
    have hab : a = b := le_antisymm (not_lt.1 h2) (not_lt.1 h1)
    subst hab
    rw [diffSeq, if_neg h1, if_neg h1, ih (List.sorted_cons.1 ha).2 (List.sorted_cons.1 hb).2,
      List.filter_cons_of_neg (by simp)]
    apply List.filter_congr
    intro v hv
    have : v ≠ a := ne_of_gt ((List.sorted_cons.1 ha).1 v hv)
    simp [this]

theorem xsecSeq_sorted (a b : List T) (ha : a.Sorted (· < ·)) (hb : b.Sorted (· < ·)) :
    xsecSeq a b = a.filter (fun v => decide (v ∈ b)) := by
  induction a, b using xsecSeq.induct with
  | case1 => simp [xsecSeq]
  | case2 a as => simp [xsecSeq]
  | case3 a as b bs hab ih =>
    have hbs := List.sorted_cons.1 hb
    have hna : a ∉ b :: bs := by
      intro hm
      rcases List.mem_cons.1 hm with h | h
      · exact absurd hab (h ▸ lt_irrefl a)
      · exact absurd (lt_trans hab (hbs.1 a h)) (lt_irrefl a)
    rw [xsecSeq, if_pos hab, ih (List.sorted_cons.1 ha).2 hb, List.filter_cons_of_neg (by simpa using hna)]
  | case4 a as b bs h1 h2 ih =>
    rw [xsecSeq, if_neg h1, if_pos h2, ih ha (List.sorted_cons.1 hb).2]
    apply List.filter_congr
    intro v hv
    have hbv : b < v := by
      rcases List.mem_cons.1 hv with h | h
      · exact h ▸ h2
      · exact lt_trans h2 ((List.sorted_cons.1 ha).1 v h)
    have : v ≠ b := ne_of_gt hbv
    simp [this]
  | case5 a as b bs h1 h2 ih =>
    have hab : a = b := le_antisymm (not_lt.1 h2) (not_lt.1 h1)
    subst hab
    rw [xsecSeq, if_neg h1, if_neg h1, ih (List.sorted_cons.1 ha).2 (List.sorted_cons.1 hb).2,
      List.filter_cons_of_pos (by simp)]
    congr 1
    apply List.filter_congr
    intro v hv
    have : v ≠ a := ne_of_gt ((List.sorted_cons.1 ha).1 v hv)
    simp [this]

theorem xsecSeq_sorted_right (a b : List T) (ha : a.Sorted (· < ·)) (hb : b.Sorted (· < ·)) :
    xsecSeq a b = b.filter (fun v => decide (v ∈ a)) := by
  induction a, b using xsecSeq.induct with
  | case1 => simp [xsecSeq]
  | case2 a as => simp [xsecSeq]
  | case3 a as b bs hab ih =>
    rw [xsecSeq, if_pos hab, ih (List.sorted_cons.1 ha).2 hb]
    apply List.filter_congr
    intro v hv
    have hav : a < v := by
      rcases List.mem_cons.1 hv with h | h
      · exact h ▸ hab
      · exact lt_trans hab ((List.sorted_cons.1 hb).1 v h)
    have : v ≠ a := ne_of_gt hav
    simp [this]
  | case4 a as b bs h1 h2 ih =>
    have hnb : b ∉ a :: as := by
      intro hm
      rcases List.mem_cons.1 hm with h | h
      · exact absurd h2 (h ▸ lt_irrefl b)
      · exact absurd (lt_trans h2 ((List.sorted_cons.1 ha).1 b h)) (lt_irrefl b)
    rw [xsecSeq, if_neg h1, if_pos h2, ih ha (List.sorted_cons.1 hb).2,
      List.filter_cons_of_neg (by simpa using hnb)]
  | case5 a as b bs h1 h2 ih =>
    have hab : a = b := le_antisymm (not_lt.1 h2) (not_lt.1 h1)
    subst hab
    rw [xsecSeq, if_neg h1, if_neg h1, ih (List.sorted_cons.1 ha).2 (List.sorted_cons.1 hb).2,
      List.filter_cons_of_pos (by simp)]
    congr 1
    apply List.filter_congr
    intro v hv
    have : v ≠ a := ne_of_gt ((List.sorted_cons.1 hb).1 v hv)
    simp [this]

theorem diffSeq_self (a : List T) : diffSeq a a = [] := by
  induction a with
  | nil => simp [diffSeq]
  | cons x xs ih => simp [diffSeq, ih]

theorem xsecSeq_self (a : List T) : xsecSeq a a = a := by
  induction a with
  | nil => simp [xsecSeq]
  | cons x xs ih => simp [xsecSeq, ih]

theorem diffSeq_nil_right (a : List T) : diffSeq a [] = a := by
  cases a <;> simp [diffSeq]

theorem xsecSeq_nil_right (a : List T) : xsecSeq a [] = [] := by
  cases a <;> simp [xsecSeq]

/-! ## `SplitSets` on ascending, duplicate-free inputs -/

/-- C6. `SplitSets` equals its reference definition: for ascending, duplicate-free `A`
and `B` (strictly sorted lists) and any prior contents of the three output vectors, the
call returns with `list_diff_a` the elements of `A` not in `B`, `list_diff_b` the
elements of `B` not in `A` and `list_xsec` the elements of `A` that are in `B`, each in
the order of its input, and all three outputs are ascending. -/
theorem C6_SplitSets_reference [Inhabited T] (A B : List T) (hA : A.Sorted (· < ·))
    (hB : B.Sorted (· < ·)) (da db xs : List T) :
    SplitSets A B da db xs
        = some (A.filter (fun v => decide (v ∉ B)), B.filter (fun v => decide (v ∉ A)),
            A.filter (fun v => decide (v ∈ B))) ∧
      (A.filter (fun v => decide (v ∉ B))).Sorted (· < ·) ∧
      (B.filter (fun v => decide (v ∉ A))).Sorted (· < ·) ∧
      (A.filter (fun v => decide (v ∈ B))).Sorted (· < ·) := by
  refine ⟨?_, hA.filter _, hB.filter _, hA.filter _⟩
  rw [SplitSets_eq, diffSeq_sorted A B hA hB, diffSeq_sorted B A hB hA, xsecSeq_sorted A B hA hB]

theorem C6_SplitSets_reference_witness :
    (([1, 2, 3] : List Nat).Sorted (· < ·) ∧ ([2, 3, 4] : List Nat).Sorted (· < ·)) ∧
      SplitSets ([1, 2, 3] : List Nat) [2, 3, 4] [9, 9, 9, 9, 9] [] [7] = some ([1], [4], [2, 3]) :=
  ⟨⟨by decide, by decide⟩,
    (C6_SplitSets_reference ([1, 2, 3] : List Nat) [2, 3, 4] (by decide) (by decide)
      [9, 9, 9, 9, 9] [] [7]).1.trans (by decide)⟩

/-- C7. `SplitSets` partitions its inputs: for ascending, duplicate-free `A` and `B` the
call returns outputs with `diff_a ∪ xsec = A` and `diff_b ∪ xsec = B` as sets, with
`diff_a`, `diff_b` and `xsec` pairwise disjoint, and with
`|diff_a| + |xsec| = |A|` and `|diff_b| + |xsec| = |B|`. -/
theorem C7_SplitSets_partition [Inhabited T] (A B : List T) (hA : A.Sorted (· < ·))
    (hB : B.Sorted (· < ·)) (da db xs : List T) :
    ∃ diff_a diff_b xsec, SplitSets A B da db xs = some (diff_a, diff_b, xsec) ∧
      (∀ v, v ∈ diff_a ∨ v ∈ xsec ↔ v ∈ A) ∧
      (∀ v, v ∈ diff_b ∨ v ∈ xsec ↔ v ∈ B) ∧
      (∀ v, ¬ (v ∈ diff_a ∧ v ∈ diff_b)) ∧
      (∀ v, ¬ (v ∈ diff_a ∧ v ∈ xsec)) ∧
      (∀ v, ¬ (v ∈ diff_b ∧ v ∈ xsec)) ∧
      diff_a.length + xsec.length = A.length ∧
      diff_b.length + xsec.length = B.length := by
  refine ⟨diffSeq A B, diffSeq B A, xsecSeq A B, SplitSets_eq A B da db xs, ?_, ?_, ?_, ?_, ?_,
    ?_, ?_⟩
  · intro v
    rw [diffSeq_sorted A B hA hB, xsecSeq_sorted A B hA hB]
    simp only [List.mem_filter, decide_eq_true_eq]
    tauto
  · intro v
    rw [diffSeq_sorted B A hB hA, xsecSeq_sorted_right A B hA hB]
    simp only [List.mem_filter, decide_eq_true_eq]
    tauto
  · intro v
    rw [diffSeq_sorted A B hA hB, diffSeq_sorted B A hB hA]
    simp only [List.mem_filter, decide_eq_true_eq]
    tauto
  · intro v
    rw [diffSeq_sorted A B hA hB, xsecSeq_sorted A B hA hB]
    simp only [List.mem_filter, decide_eq_true_eq]
    tauto
  · intro v
    rw [diffSeq_sorted B A hB hA, xsecSeq_sorted A B hA hB]
    simp only [List.mem_filter, decide_eq_true_eq]
    tauto
  · rw [diffSeq_sorted A B hA hB, xsecSeq_sorted A B hA hB, ← List.countP_eq_length_filter,
      ← List.countP_eq_length_filter, Nat.add_comm,
      List.length_eq_countP_add_countP (fun v => decide (v ∈ B)) A]
    congr 1
    apply List.countP_congr
    intro v _
    simp
  · rw [diffSeq_sorted B A hB hA, xsecSeq_sorted_right A B hA hB, ← List.countP_eq_length_filter,
      ← List.countP_eq_length_filter, Nat.add_comm,
      List.length_eq_countP_add_countP (fun v => decide (v ∈ A)) B]
    congr 1
    apply List.countP_congr
    intro v _
    simp

theorem C7_SplitSets_partition_witness :
    (([1, 2, 3] : List Nat).Sorted (· < ·) ∧ ([2, 3, 4] : List Nat).Sorted (· < ·)) ∧
      ∃ diff_a diff_b xsec,
        SplitSets ([1, 2, 3] : List Nat) [2, 3, 4] [] [] [] = some (diff_a, diff_b, xsec) ∧
        (∀ v, v ∈ diff_a ∨ v ∈ xsec ↔ v ∈ ([1, 2, 3] : List Nat)) ∧
        (∀ v, v ∈ diff_b ∨ v ∈ xsec ↔ v ∈ ([2, 3, 4] : List Nat)) ∧
        (∀ v, ¬ (v ∈ diff_a ∧ v ∈ diff_b)) ∧
        (∀ v, ¬ (v ∈ diff_a ∧ v ∈ xsec)) ∧
        (∀ v, ¬ (v ∈ diff_b ∧ v ∈ xsec)) ∧
        diff_a.length + xsec.length = ([1, 2, 3] : List Nat).length ∧
        diff_b.length + xsec.length = ([2, 3, 4] : List Nat).length :=
  ⟨⟨by decide, by decide⟩,
    C7_SplitSets_partition ([1, 2, 3] : List Nat) [2, 3, 4] (by decide) (by decide) [] [] []⟩

/-- C8. Coverage invariant of the add/remove delta: for ascending, duplicate-free `prev`
and `req`, with `rem = list_diff_a` and `add = list_diff_b` returned by
`SplitSets prev req`, the set `req` is exactly `(prev` minus `rem)` plus `add`, `add` is
disjoint from `prev`, and `rem` is a subset of `prev`. -/
theorem C8_SplitSets_coverage [Inhabited T] (prev req : List T) (hp : prev.Sorted (· < ·))
    (hr : req.Sorted (· < ·)) (da db xs : List T) :
    ∃ rem add keep, SplitSets prev req da db xs = some (rem, add, keep) ∧
      (∀ v, v ∈ req ↔ (v ∈ prev ∧ v ∉ rem) ∨ v ∈ add) ∧
      (∀ v, v ∈ add → v ∉ prev) ∧
      (∀ v, v ∈ rem → v ∈ prev) := by
  refine ⟨diffSeq prev req, diffSeq req prev, xsecSeq prev req, SplitSets_eq prev req da db xs,
    ?_, ?_, ?_⟩
  · intro v
    rw [diffSeq_sorted prev req hp hr, diffSeq_sorted req prev hr hp]
    simp only [List.mem_filter, decide_eq_true_eq]
    tauto
  · intro v
    rw [diffSeq_sorted req prev hr hp]
    simp only [List.mem_filter, decide_eq_true_eq]
    tauto
  · intro v
    rw [diffSeq_sorted prev req hp hr]
    simp only [List.mem_filter, decide_eq_true_eq]
    tauto

theorem C8_SplitSets_coverage_witness :
    (([10, 20, 30] : List Nat).Sorted (· < ·) ∧ ([20, 25, 30, 40] : List Nat).Sorted (· < ·)) ∧
      ∃ rem add keep,
        SplitSets ([10, 20, 30] : List Nat) [20, 25, 30, 40] [] [] [] = some (rem, add, keep) ∧
        (∀ v, v ∈ ([20, 25, 30, 40] : List Nat)
          ↔ (v ∈ ([10, 20, 30] : List Nat) ∧ v ∉ rem) ∨ v ∈ add) ∧
        (∀ v, v ∈ add → v ∉ ([10, 20, 30] : List Nat)) ∧
        (∀ v, v ∈ rem → v ∈ ([10, 20, 30] : List Nat)) :=
  ⟨⟨by decide, by decide⟩,
    C8_SplitSets_coverage ([10, 20, 30] : List Nat) [20, 25, 30, 40] (by decide) (by decide)
      [] [] []⟩

/-- C9. Idempotence of the delta on an unchanged set: for every sequence `A` (so in
particular every ascending, duplicate-free one) and any prior contents of the output
vectors, `SplitSets A A` returns `list_diff_a = []` (nothing to remove),
`list_diff_b = []` (nothing to add) and `list_xsec = A`. -/
theorem C9_SplitSets_unchanged [Inhabited T] (A da db xs : List T) :
    SplitSets A A da db xs = some ([], [], A) := by
  rw [SplitSets_eq, diffSeq_self, xsecSeq_self]

/-- C10. Full eviction when nothing is required: for every sequence `prev` (so in
particular every ascending, duplicate-free one), `SplitSets prev []` returns
`list_diff_a = prev`, `list_diff_b = []` and `list_xsec = []`; symmetrically, for every
`req`, `SplitSets [] req` returns `list_diff_a = []`, `list_diff_b = req` and
`list_xsec = []`. -/
theorem C10_SplitSets_empty_side [Inhabited T] (prev req da db xs : List T) :
    SplitSets prev [] da db xs = some (prev, [], []) ∧
      SplitSets [] req da db xs = some ([], req, []) := by
  constructor
  · rw [SplitSets_eq, diffSeq_nil_right, xsecSeq_nil_right]
    simp [diffSeq]
  · rw [SplitSets_eq, diffSeq_nil_right]
    simp [diffSeq, xsecSeq]

end MergeLemmas

/-! ## `SplitSets` on arbitrary inputs -/

section MergeGeneral

variable {T : Type} [LinearOrder T]

theorem diffSeq_subset (a b : List T) : ∀ v ∈ diffSeq a b, v ∈ a := by
  induction a, b using diffSeq.induct with
  | case1 => simp [diffSeq]
  | case2 a as => simp [diffSeq]
  | case3 a as b bs hab ih =>
    intro v hv
    rw [diffSeq, if_pos hab] at hv
    rcases List.mem_cons.1 hv with h | h
    · exact h ▸ List.mem_cons_self _ _
    · exact List.mem_cons_of_mem _ (ih v h)
  | case4 a as b bs h1 h2 ih =>
    intro v hv
    rw [diffSeq, if_neg h1, if_pos h2] at hv
    exact ih v hv
  | case5 a as b bs h1 h2 ih =>
    intro v hv
    rw [diffSeq, if_neg h1, if_neg h2] at hv
    exact List.mem_cons_of_mem _ (ih v hv)

theorem xsecSeq_subset (a b : List T) : ∀ v ∈ xsecSeq a b, v ∈ a ∧ v ∈ b := by
  induction a, b using xsecSeq.induct with
  | case1 => simp [xsecSeq]
  | case2 a as => simp [xsecSeq]
  | case3 a as b bs hab ih =>
    intro v hv
    rw [xsecSeq, if_pos hab] at hv
    exact ⟨List.mem_cons_of_mem _ (ih v hv).1, (ih v hv).2⟩
  | case4 a as b bs h1 h2 ih =>
    intro v hv
    rw [xsecSeq, if_neg h1, if_pos h2] at hv
    exact ⟨(ih v hv).1, List.mem_cons_of_mem _ (ih v hv).2⟩
  | case5 a as b bs h1 h2 ih =>
    intro v hv
    have hab : a = b := le_antisymm (not_lt.1 h2) (not_lt.1 h1)
    rw [xsecSeq, if_neg h1, if_neg h2] at hv
    rcases List.mem_cons.1 hv with h | h
    · exact ⟨h ▸ List.mem_cons_self _ _, by rw [h, hab]; exact List.mem_cons_self _ _⟩
    · exact ⟨List.mem_cons_of_mem _ (ih v h).1, List.mem_cons_of_mem _ (ih v h).2⟩

/-- C11. Unsorted input is not unsafe: for every pair of sequences `A` and `B` (sorted or
not, with or without duplicates) and any prior contents of the output vectors, each of
the three merge passes of `SplitSets` returns (no write fell outside its buffer), leaves
the buffer at the size it was resized to (`|A|`, `|B|`, `min |A| |B|`), and has written
`n_a ≤ |A|`, `n_b ≤ |B|`, `n_x ≤ min |A| |B|` elements; `SplitSets` returns the written
prefixes, and every element written is an element of the corresponding input (of both
inputs for `list_xsec`). -/
theorem C11_SplitSets_writes_in_bounds [Inhabited T] (A B da db xs : List T) :
    ∃ buf_a n_a buf_b n_b buf_x n_x,
      set_difference A B (resize da A.length) 0 = some (buf_a, n_a) ∧
      set_difference B A (resize db B.length) 0 = some (buf_b, n_b) ∧
      set_intersection A B (resize xs (min A.length B.length)) 0 = some (buf_x, n_x) ∧
      (n_a ≤ A.length ∧ n_b ≤ B.length ∧ n_x ≤ min A.length B.length) ∧
      (buf_a.length = A.length ∧ buf_b.length = B.length ∧
        buf_x.length = min A.length B.length) ∧
      SplitSets A B da db xs = some (buf_a.take n_a, buf_b.take n_b, buf_x.take n_x) ∧
      (∀ v ∈ buf_a.take n_a, v ∈ A) ∧ (∀ v ∈ buf_b.take n_b, v ∈ B) ∧
      (∀ v ∈ buf_x.take n_x, v ∈ A ∧ v ∈ B) := by
  obtain ⟨b1, h1, l1, t1⟩ := set_difference_spec A B (resize da A.length) 0
    (by rw [resize_length]; omega)
  obtain ⟨b2, h2, l2, t2⟩ := set_difference_spec B A (resize db B.length) 0
    (by rw [resize_length]; omega)
  obtain ⟨b3, h3, l3, t3⟩ := set_intersection_spec A B (resize xs (min A.length B.length)) 0
    (by rw [resize_length]; omega)
  rw [resize_length] at l1 l2 l3
  simp only [List.take_zero, List.nil_append] at t1 t2 t3
  refine ⟨b1, _, b2, _, b3, _, h1, h2, h3, ⟨?_, ?_, ?_⟩, ⟨l1, l2, l3⟩, ?_, ?_, ?_, ?_⟩
  · have := diffSeq_length_le A B; omega
  · have := diffSeq_length_le B A; omega
  · have := xsecSeq_length_le A B; omega
  · rw [t1, t2, t3]; exact SplitSets_eq A B da db xs
  · rw [t1]; exact diffSeq_subset A B
  · rw [t2]; exact diffSeq_subset B A
  · rw [t3]; exact xsecSeq_subset A B

theorem SortedSetDiff_eq (A B : List T) :
    SortedSetDiff A B = (diffSeq A B, diffSeq B A, xsecSeq A B) := by
  induction A, B using SortedSetDiff.induct with
  | case1 bs => cases bs <;> simp [SortedSetDiff, diffSeq, xsecSeq]
  | case2 a as => simp [SortedSetDiff, diffSeq, xsecSeq]
  | case3 a as b bs hab ih =>
    have hba : ¬ b < a := not_lt_of_gt hab
    rw [SortedSetDiff, if_pos hab]
    simp only [ih]
    rw [diffSeq, if_pos hab, diffSeq.eq_def (b :: bs) (a :: as), xsecSeq, if_pos hab]
    simp only [if_neg hba, if_pos hab]
  | case4 a as b bs h1 h2 ih =>
    rw [SortedSetDiff, if_neg h1, if_pos h2]
    simp only [ih]
    rw [diffSeq, if_neg h1, if_pos h2, diffSeq.eq_def (b :: bs) (a :: as), xsecSeq, if_neg h1,
      if_pos h2]
    simp only [if_pos h2]
  | case5 a as b bs h1 h2 ih =>
    rw [SortedSetDiff, if_neg h1, if_neg h2]
    simp only [ih]
    rw [diffSeq, if_neg h1, if_neg h2, diffSeq.eq_def (b :: bs) (a :: as), xsecSeq, if_neg h1,
      if_neg h2]
    simp only [if_neg h2, if_neg h1]

/-- C20. The three-pass implementation refines the single-pass algorithm: for every pair
of sequences `A` and `B` over a linear order and any prior contents of the output
vectors, the triple `(list_diff_a, list_diff_b, list_xsec)` that `SplitSets` returns
equals the triple `(onlyA, onlyB, both)` of the classic three-way merge `SortedSetDiff`. -/
theorem C20_SplitSets_refines_single_pass [Inhabited T] (A B da db xs : List T) :
    SplitSets A B da db xs = some (SortedSetDiff A B) := by
  rw [SplitSets_eq, SortedSetDiff_eq]

end MergeGeneral

/-! ## Tiles: bounds, level, coordinates and id -/

theorem quadrant_offset (px q : Nat) (hq : q ≤ 1) :
    ((2 * px + q) % 2 ^ 32 + 2 ^ 32 - (px % 2 ^ 32 * 2) % 2 ^ 32) % 2 ^ 32 = q := by
  omega

/-- The bounds `getBounds` computes for the child in quadrant `(qx, qy)` of `p`. -/
theorem getBounds_quadrant (p : TileLL) (qx qy : Nat) (hqx : qx ≤ 1) (hqy : qy ≤ 1) :
    TileLL.getBounds p (2 * p.getX + qx) (2 * p.getY + qy)
      = { minLon := p.getTileBounds.minLon
            + (p.getTileBounds.maxLon - p.getTileBounds.minLon) * (1 / 2) * (qx : ℚ)
          maxLon := p.getTileBounds.minLon
            + (p.getTileBounds.maxLon - p.getTileBounds.minLon) * (1 / 2) * (qx : ℚ)
            + (p.getTileBounds.maxLon - p.getTileBounds.minLon) * (1 / 2)
          minLat := p.getTileBounds.minLat
            + (p.getTileBounds.maxLat - p.getTileBounds.minLat) * (1 / 2) * (qy : ℚ)
          maxLat := p.getTileBounds.minLat
            + (p.getTileBounds.maxLat - p.getTileBounds.minLat) * (1 / 2) * (qy : ℚ)
            + (p.getTileBounds.maxLat - p.getTileBounds.minLat) * (1 / 2) } := by
  simp only [TileLL.getBounds, quadrant_offset p.getX qx hqx, quadrant_offset p.getY qy hqy]

theorem firstDescendant_level (n : Nat) (hn : n ≤ 255) :
    (TileLL.firstDescendant n).getLevel = n := by
  induction n with
  | zero => rfl
  | succ k ih =>
    have h := ih (by omega)
    simp only [TileLL.firstDescendant, TileLL.newChild, TileLL.getLevel] at h ⊢
    rw [h]
    omega

/-- C12. Quartering tiles the parent, in exact arithmetic: for every parent tile `p` with
`minLon < maxLon` and `minLat < maxLat`, the bounds `getBounds` computes for the four
children `(2·p.x + qx, 2·p.y + qy)`, `qx, qy ∈ {0, 1}`, are these: the `qx = 0` children
span `[minLon, mid]` and the `qx = 1` children span `[mid, maxLon]` in longitude, with
`mid = minLon + (maxLon - minLon) / 2`, and likewise in latitude; the union of the four
closed rectangles is the rectangle of the parent; the interiors of two different
children are disjoint. -/
theorem C12_quartering_tiles_parent (p : TileLL)
    (hlon : p.getTileBounds.minLon < p.getTileBounds.maxLon)
    (hlat : p.getTileBounds.minLat < p.getTileBounds.maxLat) :
    (∀ q, q ≤ 1 →
      (TileLL.getBounds p (2 * p.getX + 0) (2 * p.getY + q)).minLon = p.getTileBounds.minLon ∧
      (TileLL.getBounds p (2 * p.getX + 0) (2 * p.getY + q)).maxLon
        = p.getTileBounds.minLon + (p.getTileBounds.maxLon - p.getTileBounds.minLon) / 2 ∧
      (TileLL.getBounds p (2 * p.getX + 1) (2 * p.getY + q)).minLon
        = p.getTileBounds.minLon + (p.getTileBounds.maxLon - p.getTileBounds.minLon) / 2 ∧
      (TileLL.getBounds p (2 * p.getX + 1) (2 * p.getY + q)).maxLon = p.getTileBounds.maxLon ∧
      (TileLL.getBounds p (2 * p.getX + q) (2 * p.getY + 0)).minLat = p.getTileBounds.minLat ∧
      (TileLL.getBounds p (2 * p.getX + q) (2 * p.getY + 0)).maxLat
        = p.getTileBounds.minLat + (p.getTileBounds.maxLat - p.getTileBounds.minLat) / 2 ∧
      (TileLL.getBounds p (2 * p.getX + q) (2 * p.getY + 1)).minLat
        = p.getTileBounds.minLat + (p.getTileBounds.maxLat - p.getTileBounds.minLat) / 2 ∧
      (TileLL.getBounds p (2 * p.getX + q) (2 * p.getY + 1)).maxLat = p.getTileBounds.maxLat) ∧
    (∀ lon lat, p.getTileBounds.contains lon lat ↔
      (TileLL.getBounds p (2 * p.getX + 0) (2 * p.getY + 0)).contains lon lat ∨
      (TileLL.getBounds p (2 * p.getX + 0) (2 * p.getY + 1)).contains lon lat ∨
      (TileLL.getBounds p (2 * p.getX + 1) (2 * p.getY + 0)).contains lon lat ∨
      (TileLL.getBounds p (2 * p.getX + 1) (2 * p.getY + 1)).contains lon lat) ∧
    (∀ qx qy rx ry, qx ≤ 1 → qy ≤ 1 → rx ≤ 1 → ry ≤ 1 → (qx, qy) ≠ (rx, ry) →
      ∀ lon lat,
        ¬ ((TileLL.getBounds p (2 * p.getX + qx) (2 * p.getY + qy)).interior lon lat ∧
          (TileLL.getBounds p (2 * p.getX + rx) (2 * p.getY + ry)).interior lon lat)) := by
  refine ⟨?_, ?_, ?_⟩
  · intro q hq
    rw [getBounds_quadrant p 0 q (by omega) hq, getBounds_quadrant p 1 q (by omega) hq,
      getBounds_quadrant p q 0 hq (by omega), getBounds_quadrant p q 1 hq (by omega)]
    simp only [Nat.cast_zero, Nat.cast_one]
    refine ⟨?_, ?_, ?_, ?_, ?_, ?_, ?_, ?_⟩ <;> ring
  · intro lon lat
    rw [getBounds_quadrant p 0 0 (by omega) (by omega),
      getBounds_quadrant p 0 1 (by omega) (by omega),
      getBounds_quadrant p 1 0 (by omega) (by omega),
      getBounds_quadrant p 1 1 (by omega) (by omega)]
    simp only [GeoBounds.contains, Nat.cast_zero, Nat.cast_one]
    constructor
    · rintro ⟨h1, h2, h3, h4⟩
      rcases le_total lon (p.getTileBounds.minLon
          + (p.getTileBounds.maxLon - p.getTileBounds.minLon) * (1 / 2)) with hx | hx <;>
        rcases le_total lat (p.getTileBounds.minLat
          + (p.getTileBounds.maxLat - p.getTileBounds.minLat) * (1 / 2)) with hy | hy
      · left; refine ⟨?_, ?_, ?_, ?_⟩ <;> linarith
      · right; left; refine ⟨?_, ?_, ?_, ?_⟩ <;> linarith
      · right; right; left; refine ⟨?_, ?_, ?_, ?_⟩ <;> linarith
      · right; right; right; refine ⟨?_, ?_, ?_, ?_⟩ <;> linarith
    · rintro (⟨h1, h2, h3, h4⟩ | ⟨h1, h2, h3, h4⟩ | ⟨h1, h2, h3, h4⟩ | ⟨h1, h2, h3, h4⟩) <;>
        refine ⟨?_, ?_, ?_, ?_⟩ <;> linarith
  · intro qx qy rx ry hqx hqy hrx hry hne lon lat
    rw [getBounds_quadrant p qx qy hqx hqy, getBounds_quadrant p rx ry hrx hry]
    simp only [GeoBounds.interior]
    rintro ⟨⟨a1, a2, a3, a4⟩, b1, b2, b3, b4⟩
    have hcases : qx = 0 ∨ qx = 1 := by omega
    have hcases2 : qy = 0 ∨ qy = 1 := by omega
    have hcases3 : rx = 0 ∨ rx = 1 := by omega
    have hcases4 : ry = 0 ∨ ry = 1 := by omega
    rcases hcases with rfl | rfl <;> rcases hcases2 with rfl | rfl <;>
      rcases hcases3 with rfl | rfl <;> rcases hcases4 with rfl | rfl <;>
      simp only [Nat.cast_zero, Nat.cast_one, ne_eq, not_true_eq_false] at * <;>
      linarith

theorem C12_quartering_tiles_parent_witness :
    (TileLL.sampleRoot.getTileBounds.minLon < TileLL.sampleRoot.getTileBounds.maxLon ∧
      TileLL.sampleRoot.getTileBounds.minLat < TileLL.sampleRoot.getTileBounds.maxLat) ∧
    (TileLL.getBounds TileLL.sampleRoot 7 11).maxLon = 4 ∧
    (TileLL.getBounds TileLL.sampleRoot 7 11).maxLat = 2 :=
  have h1 : TileLL.sampleRoot.getTileBounds.minLon < TileLL.sampleRoot.getTileBounds.maxLon := by
    simp [TileLL.sampleRoot, TileLL.newRoot, TileLL.getTileBounds]
  have h2 : TileLL.sampleRoot.getTileBounds.minLat < TileLL.sampleRoot.getTileBounds.maxLat := by
    simp [TileLL.sampleRoot, TileLL.newRoot, TileLL.getTileBounds]
  ⟨⟨h1, h2⟩,
    ((C12_quartering_tiles_parent TileLL.sampleRoot h1 h2).1 1 (by decide)).2.2.2.1,
    ((C12_quartering_tiles_parent TileLL.sampleRoot h1 h2).1 1 (by decide)).2.2.2.2.2.2.2⟩

/-- C13, as the claim states it, fails: the child constructor accepts any `(x, y)`. The
child built from the sample root (bounds `[0, 4] × [0, 2]`, at `(3, 5)`) with
`(x, y) = (9, 10)` has longitudes `[6, 8]`, outside the parent. -/
theorem C13_child_outside_parent :
    (TileLL.newChild TileLL.sampleRoot 9 10).getParent.map TileLL.getTileBounds
        = some { minLon := 0, maxLon := 4, minLat := 0, maxLat := 2 } ∧
      (TileLL.newChild TileLL.sampleRoot 9 10).getTileBounds
        = { minLon := 6, maxLon := 8, minLat := 0, maxLat := 1 } ∧
      ¬ (TileLL.newChild TileLL.sampleRoot 9 10).getTileBounds.within
          TileLL.sampleRoot.getTileBounds := by
  have hb : (TileLL.newChild TileLL.sampleRoot 9 10).getTileBounds
      = { minLon := 6, maxLon := 8, minLat := 0, maxLat := 1 } := by
    simp only [TileLL.newChild, TileLL.getTileBounds, TileLL.getBounds, TileLL.sampleRoot,
      TileLL.newRoot, TileLL.getX, TileLL.getY]
    norm_num
  refine ⟨rfl, hb, ?_⟩
  rw [hb]
  simp only [GeoBounds.within, TileLL.sampleRoot, TileLL.newRoot, TileLL.getTileBounds]
  norm_num

/-- C13, amended. In exact arithmetic (the code computes the bounds in `double`; this
statement is about the same formulas without rounding): for every parent with
`minLon < maxLon` and `minLat < maxLat` and every `(x, y)`, the tile built by the child
constructor has longitude and latitude extents half of those of the parent and satisfies
`minLon < maxLon` and `minLat < maxLat`; when it is built for a quadrant,
`(x, y) = (2·parent.x + qx, 2·parent.y + qy)` with `qx, qy ∈ {0, 1}`, its bounds are that
quadrant of the parent, from `parent.minLon + qx · (parent lon extent / 2)` over half the
longitude extent and from `parent.minLat + qy · (parent lat extent / 2)` over half the
latitude extent, and its rectangle lies within the rectangle of the parent. -/
theorem C13_child_bounds (p : TileLL) (x y : Nat)
    (hlon : p.getTileBounds.minLon < p.getTileBounds.maxLon)
    (hlat : p.getTileBounds.minLat < p.getTileBounds.maxLat) :
    ((TileLL.newChild p x y).getTileBounds.maxLon - (TileLL.newChild p x y).getTileBounds.minLon
        = (p.getTileBounds.maxLon - p.getTileBounds.minLon) / 2 ∧
      (TileLL.newChild p x y).getTileBounds.maxLat - (TileLL.newChild p x y).getTileBounds.minLat
        = (p.getTileBounds.maxLat - p.getTileBounds.minLat) / 2) ∧
    ((TileLL.newChild p x y).getTileBounds.minLon < (TileLL.newChild p x y).getTileBounds.maxLon ∧
      (TileLL.newChild p x y).getTileBounds.minLat
        < (TileLL.newChild p x y).getTileBounds.maxLat) ∧
    (∀ qx qy, qx ≤ 1 → qy ≤ 1 →
      (TileLL.newChild p (2 * p.getX + qx) (2 * p.getY + qy)).getTileBounds
        = { minLon := p.getTileBounds.minLon
              + (qx : ℚ) * ((p.getTileBounds.maxLon - p.getTileBounds.minLon) / 2)
            maxLon := p.getTileBounds.minLon
              + (qx : ℚ) * ((p.getTileBounds.maxLon - p.getTileBounds.minLon) / 2)
              + (p.getTileBounds.maxLon - p.getTileBounds.minLon) / 2
            minLat := p.getTileBounds.minLat
              + (qy : ℚ) * ((p.getTileBounds.maxLat - p.getTileBounds.minLat) / 2)
            maxLat := p.getTileBounds.minLat
              + (qy : ℚ) * ((p.getTileBounds.maxLat - p.getTileBounds.minLat) / 2)
              + (p.getTileBounds.maxLat - p.getTileBounds.minLat) / 2 } ∧
      (TileLL.newChild p (2 * p.getX + qx) (2 * p.getY + qy)).getTileBounds.within
        p.getTileBounds) := by
  have hc : (TileLL.newChild p x y).getTileBounds = TileLL.getBounds p x y := rfl
  rw [hc]
  refine ⟨⟨?_, ?_⟩, ⟨?_, ?_⟩, ?_⟩
  · simp only [TileLL.getBounds]; ring
  · simp only [TileLL.getBounds]; ring
  · simp only [TileLL.getBounds]; linarith
  · simp only [TileLL.getBounds]; linarith
  · intro qx qy hqx hqy
    have hb : (TileLL.newChild p (2 * p.getX + qx) (2 * p.getY + qy)).getTileBounds
        = TileLL.getBounds p (2 * p.getX + qx) (2 * p.getY + qy) := rfl
    rw [hb, getBounds_quadrant p qx qy hqx hqy]
    refine ⟨?_, ?_⟩
    · simp only [GeoBounds.mk.injEq]
      refine ⟨?_, ?_, ?_, ?_⟩ <;> ring
    · simp only [GeoBounds.within]
      have hcx : qx = 0 ∨ qx = 1 := by omega
      have hcy : qy = 0 ∨ qy = 1 := by omega
      rcases hcx with rfl | rfl <;> rcases hcy with rfl | rfl <;>
        simp only [Nat.cast_zero, Nat.cast_one] <;>
        refine ⟨?_, ?_, ?_, ?_⟩ <;> linarith

/-- C13 at the sample root (bounds `[0, 4] × [0, 2]`, at `(3, 5)`): its child built for the
quadrant `(1, 0)`, at `(7, 10)`, has the bounds `[2, 4] × [0, 1]`, within the parent. -/
theorem C13_child_bounds_witness :
    (TileLL.sampleRoot.getTileBounds.minLon < TileLL.sampleRoot.getTileBounds.maxLon ∧
      TileLL.sampleRoot.getTileBounds.minLat < TileLL.sampleRoot.getTileBounds.maxLat) ∧
    (TileLL.newChild TileLL.sampleRoot 7 10).getTileBounds
      = { minLon := 2, maxLon := 4, minLat := 0, maxLat := 1 } ∧
    (TileLL.newChild TileLL.sampleRoot 7 10).getTileBounds.within
      TileLL.sampleRoot.getTileBounds :=
  have h1 : TileLL.sampleRoot.getTileBounds.minLon < TileLL.sampleRoot.getTileBounds.maxLon := by
    simp [TileLL.sampleRoot, TileLL.newRoot, TileLL.getTileBounds]
  have h2 : TileLL.sampleRoot.getTileBounds.minLat < TileLL.sampleRoot.getTileBounds.maxLat := by
    simp [TileLL.sampleRoot, TileLL.newRoot, TileLL.getTileBounds]
  have h3 := (C13_child_bounds TileLL.sampleRoot 0 0 h1 h2).2.2 1 0 (by decide) (by decide)
  ⟨⟨h1, h2⟩,
    h3.1.trans (by
      simp only [TileLL.sampleRoot, TileLL.newRoot, TileLL.getTileBounds, GeoBounds.mk.injEq]
      norm_num),
    h3.2⟩

/-- C14, as the claim states it, fails at the top of the 8-bit level range: the tile
reached from a root by 255 child constructions has level 255, and the child built from
it has level 0, not 256. -/
theorem C14_level_wraps :
    (TileLL.firstDescendant 255).getLevel = 255 ∧
      (TileLL.newChild (TileLL.firstDescendant 255) 0 0).getLevel = 0 ∧
      (TileLL.newChild (TileLL.firstDescendant 255) 0 0).getLevel
        ≠ (TileLL.firstDescendant 255).getLevel + 1 := by
  have h : (TileLL.firstDescendant 255).getLevel = 255 := firstDescendant_level 255 (by omega)
  have hc : (TileLL.newChild (TileLL.firstDescendant 255) 0 0).getLevel
      = ((TileLL.firstDescendant 255).getLevel % 2 ^ 8 + 1) % 2 ^ 8 := rfl
  rw [hc, h]
  decide

/-- C14, amended. Every root tile has level 0, and every tile built by the child
constructor from a parent of level below 255 has level equal to the level of the parent
plus one (the level is an 8-bit field). -/
theorem C14_level_invariant (bounds : GeoBounds) (p : TileLL) (x y : Nat)
    (hp : p.getLevel < 255) :
    (TileLL.newRoot bounds x y).getLevel = 0 ∧
      (TileLL.newChild p x y).getLevel = p.getLevel + 1 := by
  refine ⟨rfl, ?_⟩
  have hc : (TileLL.newChild p x y).getLevel = (p.getLevel % 2 ^ 8 + 1) % 2 ^ 8 := rfl
  rw [hc]
  omega

theorem C14_level_invariant_witness :
    TileLL.sampleRoot.getLevel < 255 ∧
      (TileLL.newRoot TileLL.sampleRoot.getTileBounds 3 5).getLevel = 0 ∧
      (TileLL.newChild TileLL.sampleRoot 6 11).getLevel = TileLL.sampleRoot.getLevel + 1 :=
  ⟨by decide, C14_level_invariant TileLL.sampleRoot.getTileBounds TileLL.sampleRoot 6 11
    (by decide)⟩

/-- C15, as the claim states it, fails: the child constructor stores the `(x, y)` it is
given. The child built from the sample root at `(3, 5)` with `(x, y) = (9, 10)` has
`x = 9`, which is neither `2·3` nor `2·3 + 1`. -/
theorem C15_child_not_in_quadrant :
    TileLL.sampleRoot.getX = 3 ∧ TileLL.sampleRoot.getY = 5 ∧
      (TileLL.newChild TileLL.sampleRoot 9 10).getX = 9 ∧
      ¬ ∃ qx qy, qx ≤ 1 ∧ qy ≤ 1 ∧
        (TileLL.newChild TileLL.sampleRoot 9 10).getX = 2 * TileLL.sampleRoot.getX + qx ∧
        (TileLL.newChild TileLL.sampleRoot 9 10).getY = 2 * TileLL.sampleRoot.getY + qy := by
  refine ⟨by decide, by decide, by decide, ?_⟩
  rintro ⟨qx, qy, hqx, _, hx, _⟩
  have h1 : (TileLL.newChild TileLL.sampleRoot 9 10).getX = 9 := by decide
  have h2 : TileLL.sampleRoot.getX = 3 := by decide
  rw [h1, h2] at hx
  omega

/-- C15, amended. The child constructor stores the coordinates it is given and does not
compare them with those of the parent: for every parent of level below 255 whose child
coordinates fit 32 bits (`2·parent.x + 1` and `2·parent.y + 1` below `2^32`) and every
`(x, y)` below `2^32`, the tile built has `x` and `y` as given, level `parent.level + 1`
and that parent; there are quadrant indices `qx, qy ∈ {0, 1}` with
`x = 2·parent.x + qx` and `y = 2·parent.y + qy` exactly when the two quadrant offsets
`x - 2·parent.x` and `y - 2·parent.y` that `getBounds` computes in `uint32_t` are 0 or 1;
and whenever the coordinates of the tile are `2·parent.x + qx` and `2·parent.y + qy`,
these two offsets are `qx` and `qy`. -/
theorem C15_child_address (p : TileLL) (x y : Nat)
    (hx : x < 2 ^ 32) (hy : y < 2 ^ 32)
    (hpx : 2 * p.getX + 1 < 2 ^ 32) (hpy : 2 * p.getY + 1 < 2 ^ 32)
    (hl : p.getLevel < 255) :
    ((TileLL.newChild p x y).getX = x ∧ (TileLL.newChild p x y).getY = y ∧
      (TileLL.newChild p x y).getLevel = p.getLevel + 1 ∧
      (TileLL.newChild p x y).getParent = some p) ∧
    ((∃ qx qy, qx ≤ 1 ∧ qy ≤ 1 ∧ (TileLL.newChild p x y).getX = 2 * p.getX + qx ∧
        (TileLL.newChild p x y).getY = 2 * p.getY + qy)
      ↔ p.quadrantOffsetX x ≤ 1 ∧ p.quadrantOffsetY y ≤ 1) ∧
    (∀ qx qy, (TileLL.newChild p x y).getX = 2 * p.getX + qx →
      (TileLL.newChild p x y).getY = 2 * p.getY + qy →
      p.quadrantOffsetX x = qx ∧ p.quadrantOffsetY y = qy) := by
  have h1 : (TileLL.newChild p x y).getX = x := Nat.mod_eq_of_lt hx
  have h2 : (TileLL.newChild p x y).getY = y := Nat.mod_eq_of_lt hy
  have h3 : (TileLL.newChild p x y).getLevel = (p.getLevel % 2 ^ 8 + 1) % 2 ^ 8 := rfl
  have h4 : p.quadrantOffsetX x
      = (x % 2 ^ 32 + 2 ^ 32 - (p.getX % 2 ^ 32 * 2) % 2 ^ 32) % 2 ^ 32 := rfl
  have h5 : p.quadrantOffsetY y
      = (y % 2 ^ 32 + 2 ^ 32 - (p.getY % 2 ^ 32 * 2) % 2 ^ 32) % 2 ^ 32 := rfl
  refine ⟨⟨h1, h2, by omega, rfl⟩, ⟨?_, ?_⟩, ?_⟩
  · rintro ⟨qx, qy, hqx, hqy, ex, ey⟩
    rw [h1] at ex
    rw [h2] at ey
    constructor <;> omega
  · rintro ⟨ox, oy⟩
    refine ⟨p.quadrantOffsetX x, p.quadrantOffsetY y, ox, oy, ?_, ?_⟩
    · rw [h1]
      omega
    · rw [h2]
      omega
  · intro qx qy ex ey
    rw [h1] at ex
    rw [h2] at ey
    constructor <;> omega

/-- C15 at the sample root, at `(3, 5)` and level 0: the tile built from it with
`(x, y) = (7, 10)` is at `(7, 10)` and level 1, and the quadrant offsets of `getBounds`
are 1 and 0. -/
theorem C15_child_address_witness :
    (7 < 2 ^ 32 ∧ 10 < 2 ^ 32 ∧ 2 * TileLL.sampleRoot.getX + 1 < 2 ^ 32 ∧
      2 * TileLL.sampleRoot.getY + 1 < 2 ^ 32 ∧ TileLL.sampleRoot.getLevel < 255) ∧
    ((TileLL.newChild TileLL.sampleRoot 7 10).getX = 7 ∧
      (TileLL.newChild TileLL.sampleRoot 7 10).getY = 10 ∧
      (TileLL.newChild TileLL.sampleRoot 7 10).getLevel = TileLL.sampleRoot.getLevel + 1 ∧
      (TileLL.newChild TileLL.sampleRoot 7 10).getParent = some TileLL.sampleRoot) ∧
    (TileLL.sampleRoot.quadrantOffsetX 7 = 1 ∧ TileLL.sampleRoot.quadrantOffsetY 10 = 0) :=
  ⟨by decide,
    (C15_child_address TileLL.sampleRoot 7 10 (by decide) (by decide) (by decide) (by decide)
      (by decide)).1,
    (C15_child_address TileLL.sampleRoot 7 10 (by decide) (by decide) (by decide) (by decide)
      (by decide)).2.2 1 0 (by decide) (by decide)⟩

/-- The id `getIdFromParentXY` computes, for in-range coordinates, as a positional number
with the level digit `0` for a root and `parent.level + 1` (up to `256`) for a child. -/
theorem getIdFromParentXY_eq_add (parent : Option TileLL) (x y : Nat) (hx : x < 2 ^ 24)
    (hy : y < 2 ^ 24) :
    TileLL.getIdFromParentXY parent x y
      = (match parent with
          | none => 0
          | some p => p.getLevel % 2 ^ 8 + 1) * 2 ^ 48 + x * 2 ^ 24 + y := by
  have h2 : x % 2 ^ 32 % 2 ^ 64 = x := by omega
  have h3 : y % 2 ^ 32 % 2 ^ 64 = y := by omega
  have h5 : (x <<< 24) % 2 ^ 64 = x <<< 24 := by
    rw [Nat.shiftLeft_eq]; omega
  have h6 : x <<< 24 ||| y = x * 2 ^ 24 + y := or_shift_eq_add x y 24 hy
  cases parent with
  | none =>
    simp only [TileLL.getIdFromParentXY, h2, h3, h5, Nat.zero_shiftLeft, Nat.zero_mod,
      Nat.zero_or, h6]
    omega
  | some p =>
    have h1 : (p.getLevel % 2 ^ 8 + 1) % 2 ^ 64 = p.getLevel % 2 ^ 8 + 1 := by omega
    have h4 : ((p.getLevel % 2 ^ 8 + 1) <<< 48) % 2 ^ 64 = (p.getLevel % 2 ^ 8 + 1) <<< 48 := by
      rw [Nat.shiftLeft_eq]; omega
    have h7 : (p.getLevel % 2 ^ 8 + 1) <<< 48 ||| (x * 2 ^ 24 + y)
        = (p.getLevel % 2 ^ 8 + 1) * 2 ^ 48 + (x * 2 ^ 24 + y) :=
      or_shift_eq_add _ _ 48 (by omega)
    simp only [TileLL.getIdFromParentXY, h1, h2, h3, h4, h5, Nat.zero_or, Nat.lor_assoc, h6, h7]
    omega

/-- C16, as the claim states it, fails at the top of the 8-bit level range: the child
built at `(0, 0)` from the tile of level 255 stores level 0 and the id `2^56` (level
digit 256, reaching into the placeholder bits), while `GetIdFromLevelXY` of its stored
level and coordinates is `0`. -/
theorem C16_id_differs_at_level_wrap :
    (TileLL.newChild (TileLL.firstDescendant 255) 0 0).getLevel = 0 ∧
      (TileLL.newChild (TileLL.firstDescendant 255) 0 0).getX = 0 ∧
      (TileLL.newChild (TileLL.firstDescendant 255) 0 0).getY = 0 ∧
      (TileLL.newChild (TileLL.firstDescendant 255) 0 0).getId = 72057594037927936 ∧
      TileLL.GetIdFromLevelXY 0 0 0 = 0 ∧
      (TileLL.newChild (TileLL.firstDescendant 255) 0 0).getId
        ≠ TileLL.GetIdFromLevelXY (TileLL.newChild (TileLL.firstDescendant 255) 0 0).getLevel
            (TileLL.newChild (TileLL.firstDescendant 255) 0 0).getX
            (TileLL.newChild (TileLL.firstDescendant 255) 0 0).getY := by
  have h : (TileLL.firstDescendant 255).getLevel = 255 := firstDescendant_level 255 (by omega)
  have hl : (TileLL.newChild (TileLL.firstDescendant 255) 0 0).getLevel
      = ((TileLL.firstDescendant 255).getLevel % 2 ^ 8 + 1) % 2 ^ 8 := rfl
  have hx : (TileLL.newChild (TileLL.firstDescendant 255) 0 0).getX = 0 := rfl
  have hy : (TileLL.newChild (TileLL.firstDescendant 255) 0 0).getY = 0 := rfl
  have hi : (TileLL.newChild (TileLL.firstDescendant 255) 0 0).getId
      = TileLL.getIdFromParentXY (some (TileLL.firstDescendant 255)) 0 0 := rfl
  rw [hl, hx, hy, hi, getIdFromParentXY_eq_add _ 0 0 (by decide) (by decide)]
  simp only [h]
  decide

/-- C16, amended. For every tile constructed with `x, y < 2^24`, `GetLevelXYFromId` of
the stored id returns exactly the stored `(level, x, y)` of the tile; and for every root
tile and every child tile whose parent has level below 255 the stored id equals
`GetIdFromLevelXY (level, x, y)` of the stored level and coordinates. -/
theorem C16_id_agrees_with_fields (bounds : GeoBounds) (p : TileLL) (x y : Nat)
    (hx : x < 2 ^ 24) (hy : y < 2 ^ 24) :
    ((TileLL.newRoot bounds x y).getId
        = TileLL.GetIdFromLevelXY (TileLL.newRoot bounds x y).getLevel
            (TileLL.newRoot bounds x y).getX (TileLL.newRoot bounds x y).getY ∧
      TileLL.GetLevelXYFromId (TileLL.newRoot bounds x y).getId
        = ((TileLL.newRoot bounds x y).getLevel, (TileLL.newRoot bounds x y).getX,
            (TileLL.newRoot bounds x y).getY)) ∧
    ((p.getLevel < 255 →
        (TileLL.newChild p x y).getId
          = TileLL.GetIdFromLevelXY (TileLL.newChild p x y).getLevel
              (TileLL.newChild p x y).getX (TileLL.newChild p x y).getY) ∧
      TileLL.GetLevelXYFromId (TileLL.newChild p x y).getId
        = ((TileLL.newChild p x y).getLevel, (TileLL.newChild p x y).getX,
            (TileLL.newChild p x y).getY)) := by
  have r1 : (TileLL.newRoot bounds x y).getId = TileLL.getIdFromParentXY none x y := rfl
  have r2 : (TileLL.newRoot bounds x y).getLevel = 0 := rfl
  have r3 : (TileLL.newRoot bounds x y).getX = x % 2 ^ 32 := rfl
  have r4 : (TileLL.newRoot bounds x y).getY = y % 2 ^ 32 := rfl
  have c1 : (TileLL.newChild p x y).getId = TileLL.getIdFromParentXY (some p) x y := rfl
  have c2 : (TileLL.newChild p x y).getLevel = (p.getLevel % 2 ^ 8 + 1) % 2 ^ 8 := rfl
  have c3 : (TileLL.newChild p x y).getX = x % 2 ^ 32 := rfl
  have c4 : (TileLL.newChild p x y).getY = y % 2 ^ 32 := rfl
  have ex : x % 2 ^ 32 = x := by omega
  have ey : y % 2 ^ 32 = y := by omega
  rw [r1, r2, r3, r4, c1, c2, c3, c4, ex, ey, getIdFromParentXY_eq_add none x y hx hy,
    getIdFromParentXY_eq_add (some p) x y hx hy, GetLevelXYFromId_eq_div, GetLevelXYFromId_eq_div,
    GetIdFromLevelXY_eq_add 0 x y (by norm_num) hx hy,
    GetIdFromLevelXY_eq_add _ x y (Nat.mod_lt _ (by norm_num)) hx hy]
  simp only
  refine ⟨⟨trivial, ?_⟩, ?_, ?_⟩
  · refine Prod.ext ?_ (Prod.ext ?_ ?_) <;> simp only <;> omega
  · intro hp
    have e : (p.getLevel % 2 ^ 8 + 1) % 2 ^ 8 = p.getLevel % 2 ^ 8 + 1 := by omega
    rw [e]
  · refine Prod.ext ?_ (Prod.ext ?_ ?_) <;> simp only <;> omega

theorem C16_id_agrees_with_fields_witness :
    (16777215 < 2 ^ 24 ∧ 7 < 2 ^ 24) ∧
      TileLL.GetLevelXYFromId (TileLL.newChild TileLL.sampleRoot 16777215 7).getId
        = ((TileLL.newChild TileLL.sampleRoot 16777215 7).getLevel,
            (TileLL.newChild TileLL.sampleRoot 16777215 7).getX,
            (TileLL.newChild TileLL.sampleRoot 16777215 7).getY) :=
  ⟨by decide,
    (C16_id_agrees_with_fields TileLL.sampleRoot.getTileBounds TileLL.sampleRoot 16777215 7
      (by decide) (by decide)).2.2⟩

/-- C17. Construction defaults: a tile built by the root constructor from `bounds` and
`uint32_t` coordinates `(x, y)` has level 0, a null parent, the supplied bounds and
`(x, y)`, `clip = k_clip_NONE` and `tile_px_res = -10`; a tile built by the child
constructor has the given parent, `clip = k_clip_NONE` and `tile_px_res = -10`; in both
cases the four child slots are empty. -/
theorem C17_construction_defaults (bounds : GeoBounds) (p : TileLL) (x y cx cy : Nat)
    (hx : x < 2 ^ 32) (hy : y < 2 ^ 32) :
    ((TileLL.newRoot bounds x y).getLevel = 0 ∧
      (TileLL.newRoot bounds x y).getParent = none ∧
      (TileLL.newRoot bounds x y).getTileBounds = bounds ∧
      (TileLL.newRoot bounds x y).getX = x ∧
      (TileLL.newRoot bounds x y).getY = y ∧
      (TileLL.newRoot bounds x y).getClip = TileLL.k_clip_NONE ∧
      (TileLL.newRoot bounds x y).getTilePxRes = -10 ∧
      (TileLL.newRoot bounds x y).getChildren = [none, none, none, none]) ∧
    ((TileLL.newChild p cx cy).getParent = some p ∧
      (TileLL.newChild p cx cy).getClip = TileLL.k_clip_NONE ∧
      (TileLL.newChild p cx cy).getTilePxRes = -10 ∧
      (TileLL.newChild p cx cy).getChildren = [none, none, none, none]) :=
  ⟨⟨rfl, rfl, rfl, Nat.mod_eq_of_lt hx, Nat.mod_eq_of_lt hy, rfl, rfl, rfl⟩, rfl, rfl, rfl, rfl⟩

theorem C17_construction_defaults_witness :
    (3 < 2 ^ 32 ∧ 5 < 2 ^ 32) ∧
      (TileLL.sampleRoot.getLevel = 0 ∧ TileLL.sampleRoot.getX = 3 ∧
        TileLL.sampleRoot.getY = 5 ∧ TileLL.sampleRoot.getClip = 0 ∧
        TileLL.sampleRoot.getTilePxRes = -10) :=
  ⟨by decide,
    (C17_construction_defaults { minLon := 0, maxLon := 4, minLat := 0, maxLat := 2 }
      TileLL.sampleRoot 3 5 6 10 (by decide) (by decide)).1.1,
    (C17_construction_defaults { minLon := 0, maxLon := 4, minLat := 0, maxLat := 2 }
      TileLL.sampleRoot 3 5 6 10 (by decide) (by decide)).1.2.2.2.1,
    (C17_construction_defaults { minLon := 0, maxLon := 4, minLat := 0, maxLat := 2 }
      TileLL.sampleRoot 3 5 6 10 (by decide) (by decide)).1.2.2.2.2.1,
    (C17_construction_defaults { minLon := 0, maxLon := 4, minLat := 0, maxLat := 2 }
      TileLL.sampleRoot 3 5 6 10 (by decide) (by decide)).1.2.2.2.2.2.1,
    (C17_construction_defaults { minLon := 0, maxLon := 4, minLat := 0, maxLat := 2 }
      TileLL.sampleRoot 3 5 6 10 (by decide) (by decide)).1.2.2.2.2.2.2.1⟩

/-- C18. `CompareLevelDescending a b` is true exactly when `a.level < b.level`, and it is
a strict weak ordering on tiles: irreflexive, asymmetric, transitive, with
incomparability (which is equality of levels) transitive as well. -/
theorem C18_compare_level_strict_weak_order :
    (∀ a b : TileLL, TileLL.CompareLevelDescending a b = true ↔ a.getLevel < b.getLevel) ∧
    (∀ a : TileLL, TileLL.CompareLevelDescending a a = false) ∧
    (∀ a b : TileLL, TileLL.CompareLevelDescending a b = true →
      TileLL.CompareLevelDescending b a = false) ∧
    (∀ a b c : TileLL, TileLL.CompareLevelDescending a b = true →
      TileLL.CompareLevelDescending b c = true → TileLL.CompareLevelDescending a c = true) ∧
    (∀ a b : TileLL,
      (TileLL.CompareLevelDescending a b = false ∧ TileLL.CompareLevelDescending b a = false)
        ↔ a.getLevel = b.getLevel) ∧
    (∀ a b c : TileLL,
      TileLL.CompareLevelDescending a b = false → TileLL.CompareLevelDescending b a = false →
      TileLL.CompareLevelDescending b c = false → TileLL.CompareLevelDescending c b = false →
      TileLL.CompareLevelDescending a c = false ∧ TileLL.CompareLevelDescending c a = false) := by
  have ht : ∀ a b : TileLL,
      TileLL.CompareLevelDescending a b = true ↔ a.getLevel < b.getLevel := by
    intro a b
    simp only [TileLL.CompareLevelDescending, decide_eq_true_eq]
  have hf : ∀ a b : TileLL,
      TileLL.CompareLevelDescending a b = false ↔ ¬ a.getLevel < b.getLevel := by
    intro a b
    simp only [TileLL.CompareLevelDescending, decide_eq_false_iff_not]
  refine ⟨ht, ?_, ?_, ?_, ?_, ?_⟩
  · intro a
    rw [hf]; omega
  · intro a b
    rw [ht, hf]; omega
  · intro a b c
    rw [ht, ht, ht]; omega
  · intro a b
    rw [hf, hf]; omega
  · intro a b c
    rw [hf, hf, hf, hf, hf, hf]; omega

/-! ## The level bound of the hierarchy -/

theorem encode_eq_ok (level x y id : Nat)
    (h : TileAddress.encode level x y = Except.ok id) :
    (level < 2 ^ 8 ∧ x < 2 ^ 24 ∧ y < 2 ^ 24) ∧ id = TileLL.GetIdFromLevelXY level x y := by
  unfold TileAddress.encode at h
  split at h
  · rename_i hr
    exact ⟨hr, (Except.ok.inj h).symm⟩
  · exact absurd h (by simp)

theorem encode_eq_error (level x y : Nat) (e : TileError)
    (h : TileAddress.encode level x y = Except.error e) :
    e = TileError.InvalidCoordinate ∧ ¬ (level < 2 ^ 8 ∧ x < 2 ^ 24 ∧ y < 2 ^ 24) := by
  unfold TileAddress.encode at h
  split at h
  · exact absurd h (by simp)
  · rename_i hr
    exact ⟨(Except.error.inj h).symm, hr⟩

theorem encodeAll_ok (tiles : List (Nat × Nat × Nat)) :
    ∀ ids, TileAddress.encodeAll tiles = Except.ok ids →
      ∀ id ∈ ids, ∃ t ∈ tiles, (t.1 < 2 ^ 8 ∧ t.2.1 < 2 ^ 24 ∧ t.2.2 < 2 ^ 24) ∧
        id = TileLL.GetIdFromLevelXY t.1 t.2.1 t.2.2 := by
  induction tiles with
  | nil =>
    intro ids h id hid
    simp only [TileAddress.encodeAll, Except.ok.injEq] at h
    subst h
    exact absurd hid (List.not_mem_nil _)
  | cons t rest ih =>
    obtain ⟨level, x, y⟩ := t
    intro ids h id hid
    simp only [TileAddress.encodeAll] at h
    cases he : TileAddress.encode level x y with
    | error e => rw [he] at h; exact absurd h (by simp)
    | ok a =>
      rw [he] at h
      cases hr : TileAddress.encodeAll rest with
      | error e => rw [hr] at h; exact absurd h (by simp)
      | ok as =>
        rw [hr] at h
        simp only [Except.ok.injEq] at h
        subst h
        rcases List.mem_cons.1 hid with rfl | hmem
        · obtain ⟨hin, hid2⟩ := encode_eq_ok level x y _ he
          exact ⟨(level, x, y), List.mem_cons_self _ _, hin, hid2⟩
        · obtain ⟨t, ht, hin, hid2⟩ := ih as hr id hmem
          exact ⟨t, List.mem_cons_of_mem _ ht, hin, hid2⟩

theorem encodeAll_error (tiles : List (Nat × Nat × Nat)) :
    ∀ e, TileAddress.encodeAll tiles = Except.error e →
      e = TileError.InvalidCoordinate ∧
        ∃ t ∈ tiles, ¬ (t.1 < 2 ^ 8 ∧ t.2.1 < 2 ^ 24 ∧ t.2.2 < 2 ^ 24) := by
  induction tiles with
  | nil =>
    intro e h
    exact absurd h (by simp [TileAddress.encodeAll])
  | cons t rest ih =>
    obtain ⟨level, x, y⟩ := t
    intro e h
    simp only [TileAddress.encodeAll] at h
    cases he : TileAddress.encode level x y with
    | error e2 =>
      rw [he] at h
      simp only [Except.error.injEq] at h
      subst h
      obtain ⟨h1, h2⟩ := encode_eq_error level x y _ he
      exact ⟨h1, (level, x, y), List.mem_cons_self _ _, h2⟩
    | ok a =>
      rw [he] at h
      cases hr : TileAddress.encodeAll rest with
      | error e2 =>
        rw [hr] at h
        simp only [Except.error.injEq] at h
        subst h
        obtain ⟨h1, t, ht, h2⟩ := ih _ hr
        exact ⟨h1, t, List.mem_cons_of_mem _ ht, h2⟩
      | ok as => rw [hr] at h; exact absurd h (by simp)

theorem encodeAll_total (tiles : List (Nat × Nat × Nat))
    (h : ∀ t ∈ tiles, t.1 < 2 ^ 8 ∧ t.2.1 < 2 ^ 24 ∧ t.2.2 < 2 ^ 24) :
    ∃ ids, TileAddress.encodeAll tiles = Except.ok ids := by
  cases hr : TileAddress.encodeAll tiles with
  | ok ids => exact ⟨ids, rfl⟩
  | error e =>
    obtain ⟨_, t, ht, hn⟩ := encodeAll_error tiles e hr
    exact absurd (h t ht) hn

/-- Every tile the refinement reports below `(level, x, y)` lies between `level` and
`level + remaining`, at or above `minLevel`, and inside the columns and rows below
`(x, y)`. -/
theorem visit_spec (ts : TileSetLL) (view : View) (leavesOnly : Bool) (remaining : Nat) :
    ∀ (level x y : Nat) (t : Nat × Nat × Nat),
      t ∈ ts.visit view leavesOnly remaining level x y →
      (level ≤ t.1 ∧ t.1 ≤ level + remaining ∧ ts.GetMinLevel ≤ t.1) ∧
        (t.2.1 < (x + 1) * 2 ^ (t.1 - level) ∧ t.2.2 < (y + 1) * 2 ^ (t.1 - level)) := by
  induction remaining with
  | zero =>
    intro level x y t ht
    simp only [TileSetLL.visit] at ht
    split at ht
    · rename_i hc
      simp only [Bool.and_eq_true, decide_eq_true_eq] at hc
      simp only [List.mem_singleton] at ht
      subst ht
      simp only [Nat.sub_self, pow_zero, Nat.mul_one]
      omega
    · exact absurd ht (List.not_mem_nil _)
  | succ r ih =>
    intro level x y t ht
    have own : t = (level, x, y) → ts.GetMinLevel ≤ level →
        (level ≤ t.1 ∧ t.1 ≤ level + (r + 1) ∧ ts.GetMinLevel ≤ t.1) ∧
          (t.2.1 < (x + 1) * 2 ^ (t.1 - level) ∧ t.2.2 < (y + 1) * 2 ^ (t.1 - level)) := by
      intro e hm
      subst e
      simp only [Nat.sub_self, pow_zero, Nat.mul_one]
      omega
    have child : ∀ cx cy : Nat, cx < 2 * (x + 1) → cy < 2 * (y + 1) →
        t ∈ ts.visit view leavesOnly r (level + 1) cx cy →
        (level ≤ t.1 ∧ t.1 ≤ level + (r + 1) ∧ ts.GetMinLevel ≤ t.1) ∧
          (t.2.1 < (x + 1) * 2 ^ (t.1 - level) ∧ t.2.2 < (y + 1) * 2 ^ (t.1 - level)) := by
      intro cx cy hcx hcy hmem
      obtain ⟨⟨h1, h2, h3⟩, h4, h5⟩ := ih (level + 1) cx cy t hmem
      have e : t.1 - level = (t.1 - (level + 1)) + 1 := by omega
      have hp : 0 < 2 ^ (t.1 - (level + 1)) := Nat.two_pow_pos _
      refine ⟨⟨by omega, by omega, h3⟩, ?_, ?_⟩
      · rw [e, pow_succ]
        calc t.2.1 < (cx + 1) * 2 ^ (t.1 - (level + 1)) := h4
          _ ≤ (2 * (x + 1)) * 2 ^ (t.1 - (level + 1)) := Nat.mul_le_mul_right _ (by omega)
          _ = (x + 1) * (2 ^ (t.1 - (level + 1)) * 2) := by ring
      · rw [e, pow_succ]
        calc t.2.2 < (cy + 1) * 2 ^ (t.1 - (level + 1)) := h5
          _ ≤ (2 * (y + 1)) * 2 ^ (t.1 - (level + 1)) := Nat.mul_le_mul_right _ (by omega)
          _ = (y + 1) * (2 ^ (t.1 - (level + 1)) * 2) := by ring
    simp only [TileSetLL.visit] at ht
    split at ht
    · split at ht
      · simp only [List.mem_append] at ht
        rcases ht with (((hown | h0) | h1) | h2) | h3
        · split at hown
          · exact absurd hown (List.not_mem_nil _)
          · rename_i hc
            simp only [Bool.or_eq_true, decide_eq_true_eq, not_or, not_lt] at hc
            exact own (List.mem_singleton.1 hown) hc.2
        · exact child _ _ (by omega) (by omega) h0
        · exact child _ _ (by omega) (by omega) h1
        · exact child _ _ (by omega) (by omega) h2
        · exact child _ _ (by omega) (by omega) h3
      · rename_i hc
        simp only [Bool.or_eq_true, decide_eq_true_eq, not_or, not_lt] at hc
        exact own (List.mem_singleton.1 ht) hc.1
    · exact absurd ht (List.not_mem_nil _)

theorem mem_requiredTiles (ts : TileSetLL) (view : View) (leavesOnly : Bool)
    (t : Nat × Nat × Nat) (ht : t ∈ ts.requiredTiles view leavesOnly) :
    (ts.GetMinLevel ≤ t.1 ∧ t.1 ≤ ts.GetMaxLevel) ∧
      (t.2.1 < ts.GetNumRootTilesX * 2 ^ t.1 ∧ t.2.2 < ts.GetNumRootTilesY * 2 ^ t.1) := by
  simp only [TileSetLL.requiredTiles, List.mem_flatMap, List.mem_range] at ht
  obtain ⟨i, hi, j, hj, hmem⟩ := ht
  obtain ⟨⟨_, h2, h3⟩, h4, h5⟩ := visit_spec ts view leavesOnly _ 0 i j t hmem
  simp only [Nat.sub_zero] at h4 h5
  refine ⟨⟨h3, by omega⟩, ?_, ?_⟩
  · exact lt_of_lt_of_le h4 (Nat.mul_le_mul_right _ (by omega))
  · exact lt_of_lt_of_le h5 (Nat.mul_le_mul_right _ (by omega))

theorem decode_level_of_encode (level x y : Nat)
    (h : level < 2 ^ 8 ∧ x < 2 ^ 24 ∧ y < 2 ^ 24) :
    (TileLL.GetLevelXYFromId (TileLL.GetIdFromLevelXY level x y)).1 = level := by
  rw [GetLevelXYFromId_eq_div, GetIdFromLevelXY_eq_add level x y h.1 h.2.1 h.2.2]
  simp only
  omega

theorem required_levels (ts : TileSetLL) (view : View) (leavesOnly : Bool) (ids : List Nat)
    (h : ts.required view leavesOnly = Except.ok ids) :
    ∀ id ∈ ids, ts.GetMinLevel ≤ (TileLL.GetLevelXYFromId id).1 ∧
      (TileLL.GetLevelXYFromId id).1 ≤ ts.GetMaxLevel := by
  intro id hid
  unfold TileSetLL.required at h
  cases he : TileAddress.encodeAll (ts.requiredTiles view leavesOnly) with
  | error e => rw [he] at h; exact absurd h (by simp)
  | ok raw =>
    rw [he] at h
    simp only [Except.ok.injEq] at h
    subst h
    rw [(List.perm_insertionSort _ _).mem_iff, List.mem_dedup] at hid
    obtain ⟨t, ht, hin, rfl⟩ := encodeAll_ok _ raw he id hid
    rw [decode_level_of_encode t.1 t.2.1 t.2.2 hin]
    exact (mem_requiredTiles ts view leavesOnly t ht).1

theorem required_error (ts : TileSetLL) (view : View) (leavesOnly : Bool) (e : TileError)
    (h : ts.required view leavesOnly = Except.error e) :
    e = TileError.InvalidCoordinate ∧
      ∃ t ∈ ts.requiredTiles view leavesOnly, ¬ (t.1 < 2 ^ 8 ∧ t.2.1 < 2 ^ 24 ∧ t.2.2 < 2 ^ 24) := by
  unfold TileSetLL.required at h
  cases he : TileAddress.encodeAll (ts.requiredTiles view leavesOnly) with
  | error e2 =>
    rw [he] at h
    simp only [Except.error.injEq] at h
    subst h
    exact encodeAll_error _ _ he
  | ok raw => rw [he] at h; exact absurd h (by simp)

theorem required_total (ts : TileSetLL) (view : View) (leavesOnly : Bool)
    (hM : ts.GetMaxLevel < 2 ^ 8)
    (hnx : ts.GetNumRootTilesX * 2 ^ ts.GetMaxLevel ≤ 2 ^ 24)
    (hny : ts.GetNumRootTilesY * 2 ^ ts.GetMaxLevel ≤ 2 ^ 24) :
    ∃ ids, ts.required view leavesOnly = Except.ok ids := by
  have hall : ∀ t ∈ ts.requiredTiles view leavesOnly,
      t.1 < 2 ^ 8 ∧ t.2.1 < 2 ^ 24 ∧ t.2.2 < 2 ^ 24 := by
    intro t ht
    obtain ⟨⟨_, h2⟩, h3, h4⟩ := mem_requiredTiles ts view leavesOnly t ht
    have hpow : (2 : Nat) ^ t.1 ≤ 2 ^ ts.GetMaxLevel := Nat.pow_le_pow_right (by norm_num) h2
    have hx := le_trans (Nat.mul_le_mul_left ts.GetNumRootTilesX hpow) hnx
    have hy := le_trans (Nat.mul_le_mul_left ts.GetNumRootTilesY hpow) hny
    exact ⟨by omega, by omega, by omega⟩
  obtain ⟨raw, hraw⟩ := encodeAll_total _ hall
  refine ⟨List.insertionSort (· ≤ ·) raw.dedup, ?_⟩
  simp only [TileSetLL.required, hraw]

theorem UpdateTileSet_ok (ts : TileSetLL) (view : View) (leavesOnly : Bool)
    (previousResident required : List Nat)
    (h : ts.required view leavesOnly = Except.ok required) :
    ts.UpdateTileSet view leavesOnly previousResident
      = Except.ok (diffSeq required previousResident,
          (xsecSeq previousResident required).filter view.changed,
          diffSeq previousResident required, required) := by
  simp only [TileSetLL.UpdateTileSet, h, SplitSets_eq]

theorem UpdateTileSet_error (ts : TileSetLL) (view : View) (leavesOnly : Bool)
    (previousResident : List Nat) (e : TileError)
    (h : ts.required view leavesOnly = Except.error e) :
    ts.UpdateTileSet view leavesOnly previousResident = Except.error e := by
  simp only [TileSetLL.UpdateTileSet, h]

theorem residentAfter_levels (ts : TileSetLL) (leavesOnly : Bool) (views : List View) :
    ∀ resident : List Nat,
      (∀ id ∈ resident, ts.GetMinLevel ≤ (TileLL.GetLevelXYFromId id).1 ∧
        (TileLL.GetLevelXYFromId id).1 ≤ ts.GetMaxLevel) →
      ∀ id ∈ ts.residentAfter leavesOnly views resident,
        ts.GetMinLevel ≤ (TileLL.GetLevelXYFromId id).1 ∧
          (TileLL.GetLevelXYFromId id).1 ≤ ts.GetMaxLevel := by
  induction views with
  | nil =>
    intro resident h
    exact h
  | cons v vs ih =>
    intro resident h
    cases hr : ts.required v leavesOnly with
    | error e =>
      simp only [TileSetLL.residentAfter, UpdateTileSet_error ts v leavesOnly resident e hr]
      exact ih resident h
    | ok req =>
      simp only [TileSetLL.residentAfter, UpdateTileSet_ok ts v leavesOnly resident req hr]
      exact ih req (required_levels ts v leavesOnly req hr)

/-- C19. Level bound of the controller, for the controller as the spec describes it
(`UpdateTileSet` has no body in the sources): for every hierarchy, either reading of the
required set (`leavesOnly`), every sequence of earlier `UpdateTileSet` calls from the
empty resident set and every view, a call that returns places in the add, update and
remove lists only ids that decode to a level from `min_level` to `max_level`; a call
that does not return fails with `InvalidCoordinate`, for a required tile whose
coordinates do not fit the id, and places nothing; and every call returns when the
tile coordinates of the hierarchy fit the 24-bit fields of the id. -/
theorem C19_level_bound (ts : TileSetLL) (leavesOnly : Bool) (earlier : List View)
    (view : View) :
    (∀ add upd rem next,
      ts.UpdateTileSet view leavesOnly (ts.residentAfter leavesOnly earlier [])
        = Except.ok (add, upd, rem, next) →
      ∀ id, id ∈ add ∨ id ∈ upd ∨ id ∈ rem →
        ts.GetMinLevel ≤ (TileLL.GetLevelXYFromId id).1 ∧
          (TileLL.GetLevelXYFromId id).1 ≤ ts.GetMaxLevel) ∧
    (∀ e,
      ts.UpdateTileSet view leavesOnly (ts.residentAfter leavesOnly earlier [])
        = Except.error e →
      e = TileError.InvalidCoordinate ∧
        ∃ t ∈ ts.requiredTiles view leavesOnly,
          ¬ (t.1 < 2 ^ 8 ∧ t.2.1 < 2 ^ 24 ∧ t.2.2 < 2 ^ 24)) ∧
    (ts.GetMaxLevel < 2 ^ 8 → ts.GetNumRootTilesX * 2 ^ ts.GetMaxLevel ≤ 2 ^ 24 →
      ts.GetNumRootTilesY * 2 ^ ts.GetMaxLevel ≤ 2 ^ 24 →
      ∃ r, ts.UpdateTileSet view leavesOnly (ts.residentAfter leavesOnly earlier [])
        = Except.ok r) := by
  have hres := residentAfter_levels ts leavesOnly earlier [] (by simp)
  refine ⟨?_, ?_, ?_⟩
  · intro add upd rem next h id hid
    cases hr : ts.required view leavesOnly with
    | error e =>
      rw [UpdateTileSet_error ts view leavesOnly _ e hr] at h
      exact absurd h (by simp)
    | ok req =>
      rw [UpdateTileSet_ok ts view leavesOnly _ req hr] at h
      simp only [Except.ok.injEq, Prod.mk.injEq] at h
      obtain ⟨rfl, rfl, rfl, _⟩ := h
      rcases hid with h1 | h1 | h1
      · exact required_levels ts view leavesOnly req hr id (diffSeq_subset _ _ id h1)
      · exact hres id (xsecSeq_subset _ _ id (List.mem_of_mem_filter h1)).1
      · exact hres id (diffSeq_subset _ _ id h1)
  · intro e h
    cases hr : ts.required view leavesOnly with
    | error e2 =>
      rw [UpdateTileSet_error ts view leavesOnly _ e2 hr] at h
      simp only [Except.error.injEq] at h
      subst h
      exact required_error ts view leavesOnly _ hr
    | ok req =>
      rw [UpdateTileSet_ok ts view leavesOnly _ req hr] at h
      exact absurd h (by simp)
  · intro hM hnx hny
    obtain ⟨req, hreq⟩ := required_total ts view leavesOnly hM hnx hny
    exact ⟨_, UpdateTileSet_ok ts view leavesOnly _ req hreq⟩

theorem required_sample_leftDetail :
    TileSetLL.sample.required View.leftDetail false
      = Except.ok [0, 281474976710656, 281474976710657, 281474993487872, 281474993487873] := by
  decide

theorem required_sample_rootsOnly :
    TileSetLL.sample.required View.rootsOnly false = Except.ok [0, 16777216] := by
  decide

theorem residentAfter_sample_leftDetail :
    TileSetLL.sample.residentAfter false [View.leftDetail] []
      = [0, 281474976710656, 281474976710657, 281474993487872, 281474993487873] := by
  simp only [TileSetLL.residentAfter,
    UpdateTileSet_ok _ _ _ _ _ required_sample_leftDetail]

theorem UpdateTileSet_sample_second_call :
    TileSetLL.sample.UpdateTileSet View.rootsOnly false
        (TileSetLL.sample.residentAfter false [View.leftDetail] [])
      = Except.ok ([16777216], [0],
          [281474976710656, 281474976710657, 281474993487872, 281474993487873],
          [0, 16777216]) := by
  rw [residentAfter_sample_leftDetail, UpdateTileSet_ok _ _ _ _ _ required_sample_rootsOnly]
  simp [diffSeq, xsecSeq, View.rootsOnly]

theorem UpdateTileSet_deep_rejected :
    TileSetLL.deep.UpdateTileSet View.lastColumn false []
      = Except.error TileError.InvalidCoordinate := by
  decide

/-- C19 at two hierarchies. In the sample hierarchy (levels 0 to 2, two root tiles),
after a first call that makes the left root and its four children resident, a call
whose view needs the two roots only returns: it adds the right root, updates the left
root and removes the four children (none of the three lists is empty), and each of
these ids decodes to a level from 0 to 2. In the hierarchy with the single level 26 the
required tile `(26, 2^26 - 1, 0)` does not fit the id, and the call fails with
`InvalidCoordinate`. -/
theorem C19_level_bound_witness :
    (TileSetLL.sample.UpdateTileSet View.rootsOnly false
          (TileSetLL.sample.residentAfter false [View.leftDetail] [])
        = Except.ok ([16777216], [0],
            [281474976710656, 281474976710657, 281474993487872, 281474993487873],
            [0, 16777216]) ∧
      ∀ id, id ∈ [16777216] ∨ id ∈ [0] ∨
          id ∈ [281474976710656, 281474976710657, 281474993487872, 281474993487873] →
        TileSetLL.sample.GetMinLevel ≤ (TileLL.GetLevelXYFromId id).1 ∧
          (TileLL.GetLevelXYFromId id).1 ≤ TileSetLL.sample.GetMaxLevel) ∧
    (TileSetLL.deep.UpdateTileSet View.lastColumn false
          (TileSetLL.deep.residentAfter false [] [])
        = Except.error TileError.InvalidCoordinate ∧
      ∃ t ∈ TileSetLL.deep.requiredTiles View.lastColumn false,
        ¬ (t.1 < 2 ^ 8 ∧ t.2.1 < 2 ^ 24 ∧ t.2.2 < 2 ^ 24)) :=
  ⟨⟨UpdateTileSet_sample_second_call,
      (C19_level_bound TileSetLL.sample false [View.leftDetail] View.rootsOnly).1
        _ _ _ _ UpdateTileSet_sample_second_call⟩,
    UpdateTileSet_deep_rejected,
    ((C19_level_bound TileSetLL.deep false [] View.lastColumn).2.1
      _ UpdateTileSet_deep_rejected).2⟩

/-! ## `SplitSets`: prior contents and symmetry -/

section MergeSymmetry

variable {T : Type} [LinearOrder T]

theorem xsecSeq_comm (a b : List T) : xsecSeq a b = xsecSeq b a := by
  induction a, b using xsecSeq.induct with
  | case1 bs => cases bs <;> simp [xsecSeq]
  | case2 a as => simp [xsecSeq]
  | case3 a as b bs hab ih =>
    have hba : ¬ b < a := not_lt_of_gt hab
    rw [xsecSeq, if_pos hab, ih, xsecSeq.eq_def (b :: bs) (a :: as)]
    simp only [if_neg hba, if_pos hab]
  | case4 a as b bs h1 h2 ih =>
    rw [xsecSeq, if_neg h1, if_pos h2, ih, xsecSeq.eq_def (b :: bs) (a :: as)]
    simp only [if_pos h2]
  | case5 a as b bs h1 h2 ih =>
    have hab : a = b := le_antisymm (not_lt.1 h2) (not_lt.1 h1)
    subst hab
    rw [xsecSeq, if_neg h1, if_neg h1, ih, xsecSeq.eq_def (a :: bs) (a :: as)]
    simp only [if_neg h1]

/-- C21. The output of `SplitSets` is a function of its two inputs only: for every `A`
and `B` and any two choices of the prior contents (and sizes) of the three output
vectors, both calls return and return the same three vectors; each vector holds exactly
the sequence of values its merge pass wrote, so nothing from before the call is left in
it. -/
theorem C21_SplitSets_ignores_prior_contents [Inhabited T]
    (A B da db xs da2 db2 xs2 : List T) :
    SplitSets A B da db xs = SplitSets A B da2 db2 xs2 ∧
      SplitSets A B da db xs = SplitSets A B [] [] [] ∧
      SplitSets A B da db xs = some (diffSeq A B, diffSeq B A, xsecSeq A B) := by
  rw [SplitSets_eq, SplitSets_eq, SplitSets_eq]
  exact ⟨rfl, rfl, rfl⟩

/-- C23. `SplitSets` is symmetric in its inputs: for every pair of sequences `A` and `B`
(so in particular ascending, duplicate-free ones), `SplitSets B A` returns as its
`list_diff_a` the `list_diff_b` of `SplitSets A B`, as its `list_diff_b` the
`list_diff_a` of `SplitSets A B`, and the same `list_xsec`. -/
theorem C23_SplitSets_symmetric [Inhabited T] (A B da db xs da2 db2 xs2 : List T) :
    ∃ diff_a diff_b xsec,
      SplitSets A B da db xs = some (diff_a, diff_b, xsec) ∧
      SplitSets B A da2 db2 xs2 = some (diff_b, diff_a, xsec) := by
  refine ⟨diffSeq A B, diffSeq B A, xsecSeq A B, SplitSets_eq A B da db xs, ?_⟩
  rw [SplitSets_eq, xsecSeq_comm B A]

end MergeSymmetry

/-! ## The clip mask -/

/-- C22. The clip mask is a 4-bit mask with one bit per quadrant: `k_clip_LT`,
`k_clip_LB`, `k_clip_RB`, `k_clip_RT` are the single-bit values `2^0`, `2^1`, `2^2`,
`2^3` (so four distinct ones), they pairwise AND to zero, their bitwise OR is
`k_clip_ALL = 15`, and `k_clip_NONE = 0` has none of the four bits set. -/
theorem C22_clip_mask_bits :
    (TileLL.k_clip_LT = 2 ^ 0 ∧ TileLL.k_clip_LB = 2 ^ 1 ∧ TileLL.k_clip_RB = 2 ^ 2 ∧
      TileLL.k_clip_RT = 2 ^ 3) ∧
    [TileLL.k_clip_LT, TileLL.k_clip_LB, TileLL.k_clip_RB, TileLL.k_clip_RT].Nodup ∧
    (TileLL.k_clip_LT &&& TileLL.k_clip_LB = 0 ∧ TileLL.k_clip_LT &&& TileLL.k_clip_RB = 0 ∧
      TileLL.k_clip_LT &&& TileLL.k_clip_RT = 0 ∧ TileLL.k_clip_LB &&& TileLL.k_clip_RB = 0 ∧
      TileLL.k_clip_LB &&& TileLL.k_clip_RT = 0 ∧ TileLL.k_clip_RB &&& TileLL.k_clip_RT = 0) ∧
    (TileLL.k_clip_LT ||| TileLL.k_clip_LB ||| TileLL.k_clip_RB ||| TileLL.k_clip_RT
        = TileLL.k_clip_ALL ∧ TileLL.k_clip_ALL = 15 ∧ TileLL.k_clip_ALL < 2 ^ 4) ∧
    (TileLL.k_clip_NONE = 0 ∧ TileLL.k_clip_NONE &&& TileLL.k_clip_LT = 0 ∧
      TileLL.k_clip_NONE &&& TileLL.k_clip_LB = 0 ∧ TileLL.k_clip_NONE &&& TileLL.k_clip_RB = 0 ∧
      TileLL.k_clip_NONE &&& TileLL.k_clip_RT = 0) := by
  decide

/-! ## Pixel conversion (`ilim`) -/

theorem ct_ui_pow_eq (base exp : Nat) :
    ilim_detail.ct_ui_pow base exp = base ^ exp % 2 ^ 64 := by
  induction exp with
  | zero => simp [ilim_detail.ct_ui_pow]
  | succ n ih =>
    have e : base ^ (n + 1) = base * base ^ n := by ring
    rw [ilim_detail.ct_ui_pow, ih, e, ← Nat.mul_mod]

/-- C26. `ct_ui_pow` computes integer exponentiation and terminates: it is a total
function (the recursion on `exp - 1` is structural), `ct_ui_pow base exp` is
`base ^ exp` modulo `2^64` for every `base` and `exp`, `ct_ui_pow base 0 = 1`, and, with
the subtraction in `uint64_t`, `ct_ui_pow 2 n - 1 = 2^n - 1` for every bit depth
`n ≤ 63`, while for `n = 64` it wraps to `2^64 - 1`. -/
theorem C26_ct_ui_pow_is_pow :
    (∀ base exp : Nat, ilim_detail.ct_ui_pow base exp = base ^ exp % 2 ^ 64) ∧
    (∀ base : Nat, ilim_detail.ct_ui_pow base 0 = 1) ∧
    (∀ n : Nat, n ≤ 63 → (ilim_detail.ct_ui_pow 2 n + 2 ^ 64 - 1) % 2 ^ 64 = 2 ^ n - 1) ∧
    (ilim_detail.ct_ui_pow 2 64 = 0 ∧
      (ilim_detail.ct_ui_pow 2 64 + 2 ^ 64 - 1) % 2 ^ 64 = 2 ^ 64 - 1) := by
  refine ⟨ct_ui_pow_eq, fun _ => rfl, ?_, ?_⟩
  · intro n hn
    have h1 : (2 : Nat) ^ n < 2 ^ 64 := Nat.pow_lt_pow_right (by norm_num) (by omega)
    have h2 : 1 ≤ (2 : Nat) ^ n := Nat.one_le_two_pow
    rw [ct_ui_pow_eq, Nat.mod_eq_of_lt h1]
    omega
  · rw [ct_ui_pow_eq]
    decide

theorem scaled_props (s d v w : Nat) (hvw : v ≤ w) (hw : w ≤ 2 ^ s - 1) :
    ilim_detail.scaled s d w ≤ 2 ^ d - 1 ∧
      ilim_detail.scaled s d v ≤ ilim_detail.scaled s d w ∧ ilim_detail.scaled s d 0 = 0 := by
  unfold ilim_detail.scaled
  by_cases h : d > s
  · simp only [if_pos h, Nat.mul_zero, and_true]
    refine ⟨?_, Nat.mul_le_mul_left _ hvw⟩
    calc (2 ^ d - 1) / (2 ^ s - 1) * w ≤ (2 ^ d - 1) / (2 ^ s - 1) * (2 ^ s - 1) :=
          Nat.mul_le_mul_left _ hw
      _ ≤ 2 ^ d - 1 := Nat.div_mul_le_self _ _
  · simp only [if_neg h, Nat.shiftRight_eq_div_pow, Nat.zero_div, and_true]
    refine ⟨?_, Nat.div_le_div_right hvw⟩
    have hds : d ≤ s := by omega
    have hpow : 2 ^ s = 2 ^ d * 2 ^ (s - d) := by
      rw [← pow_add]; congr 1; omega
    have hpos : 0 < 2 ^ (s - d) := Nat.two_pow_pos _
    have hlt : w / 2 ^ (s - d) < 2 ^ d := by
      rw [Nat.div_lt_iff_lt_mul hpos, ← hpow]
      have : 0 < 2 ^ s := Nat.two_pow_pos _
      omega
    omega

theorem assign_r_scaled (PixelSrc PixelDst : ilim.PixelFormat) (src dst : ilim.Pixel) (v : Nat)
    (hs : (ilim_detail.traits PixelSrc).bits_r ≠ 0)
    (hd : (ilim_detail.traits PixelDst).bits_r ≠ 0)
    (hv : v ≤ 2 ^ (ilim_detail.traits PixelSrc).bits_r - 1) :
    ilim_detail.assign_r PixelSrc PixelDst { src with r := some v } dst
      = some { dst with r := some (ilim_detail.scaled (ilim_detail.traits PixelSrc).bits_r
          (ilim_detail.traits PixelDst).bits_r v) } := by
  have hb := (scaled_props (ilim_detail.traits PixelSrc).bits_r
    (ilim_detail.traits PixelDst).bits_r v v (le_refl v) hv).1
  cases PixelSrc <;> cases PixelDst <;>
    simp [ilim_detail.assign_r, ilim_detail.traits, ilim_detail.channel_r,
      ilim_detail.channel_max, ct_ui_pow_eq, ilim_detail.ds_shift, ilim_detail.store,
      ilim_detail.scaled, ilim_detail.type_bits_r] at hs hd hv hb ⊢ <;>
    omega

theorem assign_g_scaled (PixelSrc PixelDst : ilim.PixelFormat) (src dst : ilim.Pixel) (v : Nat)
    (hs : (ilim_detail.traits PixelSrc).bits_g ≠ 0)
    (hd : (ilim_detail.traits PixelDst).bits_g ≠ 0)
    (hv : v ≤ 2 ^ (ilim_detail.traits PixelSrc).bits_g - 1) :
    ilim_detail.assign_g PixelSrc PixelDst { src with g := some v } dst
      = some { dst with g := some (ilim_detail.scaled (ilim_detail.traits PixelSrc).bits_g
          (ilim_detail.traits PixelDst).bits_g v) } := by
  have hb := (scaled_props (ilim_detail.traits PixelSrc).bits_g
    (ilim_detail.traits PixelDst).bits_g v v (le_refl v) hv).1
  cases PixelSrc <;> cases PixelDst <;>
    simp [ilim_detail.assign_g, ilim_detail.traits, ilim_detail.channel_g,
      ilim_detail.channel_max, ct_ui_pow_eq, ilim_detail.ds_shift, ilim_detail.store,
      ilim_detail.scaled, ilim_detail.type_bits_gba] at hs hd hv hb ⊢ <;>
    omega

theorem assign_b_scaled (PixelSrc PixelDst : ilim.PixelFormat) (src dst : ilim.Pixel) (v : Nat)
    (hs : (ilim_detail.traits PixelSrc).bits_b ≠ 0)
    (hd : (ilim_detail.traits PixelDst).bits_b ≠ 0)
    (hv : v ≤ 2 ^ (ilim_detail.traits PixelSrc).bits_b - 1) :
    ilim_detail.assign_b PixelSrc PixelDst { src with b := some v } dst
      = some { dst with b := some (ilim_detail.scaled (ilim_detail.traits PixelSrc).bits_b
          (ilim_detail.traits PixelDst).bits_b v) } := by
  have hb := (scaled_props (ilim_detail.traits PixelSrc).bits_b
    (ilim_detail.traits PixelDst).bits_b v v (le_refl v) hv).1
  cases PixelSrc <;> cases PixelDst <;>
    simp [ilim_detail.assign_b, ilim_detail.traits, ilim_detail.channel_b,
      ilim_detail.channel_max, ct_ui_pow_eq, ilim_detail.ds_shift, ilim_detail.store,
      ilim_detail.scaled, ilim_detail.type_bits_gba] at hs hd hv hb ⊢ <;>
    omega

theorem assign_a_scaled (PixelSrc PixelDst : ilim.PixelFormat) (src dst : ilim.Pixel) (v : Nat)
    (hs : (ilim_detail.traits PixelSrc).bits_a ≠ 0)
    (hd : (ilim_detail.traits PixelDst).bits_a ≠ 0)
    (hv : v ≤ 2 ^ (ilim_detail.traits PixelSrc).bits_a - 1) :
    ilim_detail.assign_a PixelSrc PixelDst { src with a := some v } dst
      = some { dst with a := some (ilim_detail.scaled (ilim_detail.traits PixelSrc).bits_a
          (ilim_detail.traits PixelDst).bits_a v) } := by
  have hb := (scaled_props (ilim_detail.traits PixelSrc).bits_a
    (ilim_detail.traits PixelDst).bits_a v v (le_refl v) hv).1
  cases PixelSrc <;> cases PixelDst <;>
    simp [ilim_detail.assign_a, ilim_detail.traits, ilim_detail.channel_a,
      ilim_detail.channel_max, ct_ui_pow_eq, ilim_detail.ds_shift, ilim_detail.store,
      ilim_detail.scaled, ilim_detail.type_bits_gba] at hs hd hv hb ⊢
  all_goals omega

theorem assign_r_ok (PixelSrc PixelDst : ilim.PixelFormat) (src dst : ilim.Pixel)
    (hp : ilim_detail.channel_ok (ilim_detail.traits PixelSrc).bits_r src.r = true)
    (hd : dst.r = none) :
    ∃ x, ilim_detail.assign_r PixelSrc PixelDst src dst = some { dst with r := x } ∧
      ilim_detail.channel_ok (ilim_detail.traits PixelDst).bits_r x = true ∧
      (PixelSrc = PixelDst → x = src.r) := by
  obtain ⟨r, g, b, a⟩ := src
  obtain ⟨dr, dg, db, da⟩ := dst
  simp only at hp hd
  subst hd
  cases PixelSrc <;> cases PixelDst <;> cases r <;>
    simp [ilim_detail.channel_ok, ilim_detail.traits] at hp <;>
    simp [ilim_detail.assign_r, ilim_detail.channel_r, ilim_detail.traits,
      ilim_detail.channel_max, ct_ui_pow_eq, ilim_detail.ds_shift, ilim_detail.store,
      ilim_detail.type_bits_r, ilim_detail.channel_ok, Nat.shiftRight_eq_div_pow] <;>
    omega

theorem assign_g_ok (PixelSrc PixelDst : ilim.PixelFormat) (src dst : ilim.Pixel)
    (hp : ilim_detail.channel_ok (ilim_detail.traits PixelSrc).bits_g src.g = true)
    (hd : dst.g = none) :
    ∃ x, ilim_detail.assign_g PixelSrc PixelDst src dst = some { dst with g := x } ∧
      ilim_detail.channel_ok (ilim_detail.traits PixelDst).bits_g x = true ∧
      (PixelSrc = PixelDst → x = src.g) := by
  obtain ⟨r, g, b, a⟩ := src
  obtain ⟨dr, dg, db, da⟩ := dst
  simp only at hp hd
  subst hd
  cases PixelSrc <;> cases PixelDst <;> cases g <;>
    simp [ilim_detail.channel_ok, ilim_detail.traits] at hp <;>
    simp [ilim_detail.assign_g, ilim_detail.channel_g, ilim_detail.traits,
      ilim_detail.channel_max, ct_ui_pow_eq, ilim_detail.ds_shift, ilim_detail.store,
      ilim_detail.type_bits_gba, ilim_detail.channel_ok, Nat.shiftRight_eq_div_pow] <;>
    omega

theorem assign_b_ok (PixelSrc PixelDst : ilim.PixelFormat) (src dst : ilim.Pixel)
    (hp : ilim_detail.channel_ok (ilim_detail.traits PixelSrc).bits_b src.b = true)
    (hd : dst.b = none) :
    ∃ x, ilim_detail.assign_b PixelSrc PixelDst src dst = some { dst with b := x } ∧
      ilim_detail.channel_ok (ilim_detail.traits PixelDst).bits_b x = true ∧
      (PixelSrc = PixelDst → x = src.b) := by
  obtain ⟨r, g, b, a⟩ := src
  obtain ⟨dr, dg, db, da⟩ := dst
  simp only at hp hd
  subst hd
  cases PixelSrc <;> cases PixelDst <;> cases b <;>
    simp [ilim_detail.channel_ok, ilim_detail.traits] at hp <;>
    simp [ilim_detail.assign_b, ilim_detail.channel_b, ilim_detail.traits,
      ilim_detail.channel_max, ct_ui_pow_eq, ilim_detail.ds_shift, ilim_detail.store,
      ilim_detail.type_bits_gba, ilim_detail.channel_ok, Nat.shiftRight_eq_div_pow] <;>
    omega

theorem assign_a_ok (PixelSrc PixelDst : ilim.PixelFormat) (src dst : ilim.Pixel)
    (hp : ilim_detail.channel_ok (ilim_detail.traits PixelSrc).bits_a src.a = true)
    (hd : dst.a = none) :
    ∃ x, ilim_detail.assign_a PixelSrc PixelDst src dst = some { dst with a := x } ∧
      ilim_detail.channel_ok (ilim_detail.traits PixelDst).bits_a x = true ∧
      (PixelSrc = PixelDst → x = src.a) := by
  obtain ⟨r, g, b, a⟩ := src
  obtain ⟨dr, dg, db, da⟩ := dst
  simp only at hp hd
  subst hd
  cases PixelSrc <;> cases PixelDst <;> cases a <;>
    simp [ilim_detail.channel_ok, ilim_detail.traits] at hp <;>
    simp [ilim_detail.assign_a, ilim_detail.channel_a, ilim_detail.traits,
      ilim_detail.channel_max, ct_ui_pow_eq, ilim_detail.ds_shift, ilim_detail.store,
      ilim_detail.type_bits_gba, ilim_detail.channel_ok, Nat.shiftRight_eq_div_pow]
  all_goals omega

theorem conv_pixels_body_ok (PixelSrc PixelDst : ilim.PixelFormat) (p : ilim.Pixel)
    (hp : ilim_detail.pixel_ok PixelSrc p = true) :
    ∃ q, ilim_detail.conv_pixels_body PixelSrc PixelDst p = some q ∧
      ilim_detail.pixel_ok PixelDst q = true ∧ (PixelSrc = PixelDst → q = p) := by
  simp only [ilim_detail.pixel_ok, Bool.and_eq_true] at hp
  obtain ⟨⟨⟨h1, h2⟩, h3⟩, h4⟩ := hp
  obtain ⟨x1, e1, k1, i1⟩ := assign_r_ok PixelSrc PixelDst p
    { r := none, g := none, b := none, a := none } h1 rfl
  obtain ⟨x2, e2, k2, i2⟩ := assign_g_ok PixelSrc PixelDst p
    { r := x1, g := none, b := none, a := none } h2 rfl
  obtain ⟨x3, e3, k3, i3⟩ := assign_b_ok PixelSrc PixelDst p
    { r := x1, g := x2, b := none, a := none } h3 rfl
  obtain ⟨x4, e4, k4, i4⟩ := assign_a_ok PixelSrc PixelDst p
    { r := x1, g := x2, b := x3, a := none } h4 rfl
  refine ⟨{ r := x1, g := x2, b := x3, a := x4 }, ?_, ?_, ?_⟩
  · simp only [ilim_detail.conv_pixels_body, e1, e2, e3, e4, Option.bind_eq_bind,
      Option.some_bind, Option.pure_def]
  · simp only [ilim_detail.pixel_ok, k1, k2, k3, k4, Bool.and_self]
  · intro h
    rw [i1 h, i2 h, i3 h, i4 h]

theorem conv_pixels_loop_ok (PixelSrc PixelDst : ilim.PixelFormat) (list_src : List ilim.Pixel)
    (h : ∀ p ∈ list_src, ilim_detail.pixel_ok PixelSrc p = true) :
    ∀ acc : List ilim.Pixel, ∃ out,
      ilim_detail.conv_pixels_loop PixelSrc PixelDst list_src acc = some (acc ++ out) ∧
      List.Forall₂ (fun p q => ilim_detail.conv_pixels_body PixelSrc PixelDst p = some q ∧
        ilim_detail.pixel_ok PixelDst q = true ∧ (PixelSrc = PixelDst → q = p)) list_src out := by
  induction list_src with
  | nil =>
    intro acc
    exact ⟨[], by simp [ilim_detail.conv_pixels_loop], List.Forall₂.nil⟩
  | cons p rest ih =>
    intro acc
    obtain ⟨q, hq, hok, hid⟩ := conv_pixels_body_ok PixelSrc PixelDst p
      (h p (List.mem_cons_self _ _))
    obtain ⟨out, hout, hall⟩ := ih (fun x hx => h x (List.mem_cons_of_mem _ hx)) (acc ++ [q])
    refine ⟨q :: out, ?_, List.Forall₂.cons ⟨hq, hok, hid⟩ hall⟩
    simp only [ilim_detail.conv_pixels_loop, hq, Option.bind_eq_bind, Option.some_bind, hout,
      List.append_assoc, List.singleton_append]

theorem conv_pixels_single (PixelSrc PixelDst : ilim.PixelFormat) (p q : ilim.Pixel)
    (prior : List ilim.Pixel)
    (h : ilim_detail.conv_pixels_body PixelSrc PixelDst p = some q) :
    ilim_detail.conv_pixels PixelSrc PixelDst [p] prior = some [q] := by
  simp [ilim_detail.conv_pixels, ilim_detail.conv_pixels_loop, h]

/-- C25. `conv_pixels` is length- and order-preserving and is the identity between equal
integer formats: for all integer pixel types `PixelSrc` and `PixelDst`, every list of
source pixels (values of `PixelSrc`) and any prior contents of `list_dst`, the call
returns a list of the same length whose element `i` is the conversion of source element
`i` alone, every element is a value of `PixelDst`, and when `PixelSrc` and `PixelDst`
are the same type the destination list equals the source list. -/
theorem C25_conv_pixels_preserves (PixelSrc PixelDst : ilim.PixelFormat)
    (list_src list_dst : List ilim.Pixel)
    (h : ∀ p ∈ list_src, ilim_detail.pixel_ok PixelSrc p = true) :
    ∃ out, ilim_detail.conv_pixels PixelSrc PixelDst list_src list_dst = some out ∧
      out.length = list_src.length ∧
      (∀ (i : Nat) (hi : i < list_src.length) (ho : i < out.length),
        ilim_detail.conv_pixels PixelSrc PixelDst [list_src[i]] [] = some [out[i]]) ∧
      (∀ q ∈ out, ilim_detail.pixel_ok PixelDst q = true) ∧
      (PixelSrc = PixelDst → out = list_src) := by
  obtain ⟨out, hout, hall⟩ := conv_pixels_loop_ok PixelSrc PixelDst list_src h []
  rw [List.forall₂_iff_get] at hall
  obtain ⟨hlen, hget⟩ := hall
  refine ⟨out, ?_, hlen.symm, ?_, ?_, ?_⟩
  · simpa [ilim_detail.conv_pixels] using hout
  · intro i hi ho
    exact conv_pixels_single PixelSrc PixelDst _ _ [] (hget i hi ho).1
  · intro q hq
    obtain ⟨i, hi, rfl⟩ := List.getElem_of_mem hq
    exact (hget i (by omega) hi).2.1
  · intro heq
    apply List.ext_getElem hlen.symm
    intro i ho hi
    exact (hget i hi ho).2.2 heq

/-- C24. Integer channel conversion stays within the destination bit depth and is
monotone. For all bit depths `s` and `d` (so for 5, 6, 8, 16 and 32) and all
`v ≤ w ≤ 2^s - 1`, the scaled value (the upscale `((2^d - 1) / (2^s - 1)) * v` with
integer division when `d > s`, the downscale `v >> (s - d)` when `d ≤ s`) is at most
`2^d - 1`, is non-decreasing in `v`, and maps `0` to `0`; and for all integer pixel types
`PixelSrc`, `PixelDst` that both have the channel, `assign_r`, `assign_g`, `assign_b`
and `assign_a` store exactly that scaled value of the source channel in the destination
channel. -/
theorem C24_channel_conversion_bounded_monotone (PixelSrc PixelDst : ilim.PixelFormat)
    (src dst : ilim.Pixel) (v w : Nat) (hvw : v ≤ w) :
    (∀ s d : Nat, w ≤ 2 ^ s - 1 →
      ilim_detail.scaled s d w ≤ 2 ^ d - 1 ∧
      ilim_detail.scaled s d v ≤ ilim_detail.scaled s d w ∧ ilim_detail.scaled s d 0 = 0) ∧
    ((ilim_detail.traits PixelSrc).bits_r ≠ 0 → (ilim_detail.traits PixelDst).bits_r ≠ 0 →
      v ≤ 2 ^ (ilim_detail.traits PixelSrc).bits_r - 1 →
      ilim_detail.assign_r PixelSrc PixelDst { src with r := some v } dst
        = some { dst with r := some (ilim_detail.scaled (ilim_detail.traits PixelSrc).bits_r
            (ilim_detail.traits PixelDst).bits_r v) }) ∧
    ((ilim_detail.traits PixelSrc).bits_g ≠ 0 → (ilim_detail.traits PixelDst).bits_g ≠ 0 →
      v ≤ 2 ^ (ilim_detail.traits PixelSrc).bits_g - 1 →
      ilim_detail.assign_g PixelSrc PixelDst { src with g := some v } dst
        = some { dst with g := some (ilim_detail.scaled (ilim_detail.traits PixelSrc).bits_g
            (ilim_detail.traits PixelDst).bits_g v) }) ∧
    ((ilim_detail.traits PixelSrc).bits_b ≠ 0 → (ilim_detail.traits PixelDst).bits_b ≠ 0 →
      v ≤ 2 ^ (ilim_detail.traits PixelSrc).bits_b - 1 →
      ilim_detail.assign_b PixelSrc PixelDst { src with b := some v } dst
        = some { dst with b := some (ilim_detail.scaled (ilim_detail.traits PixelSrc).bits_b
            (ilim_detail.traits PixelDst).bits_b v) }) ∧
    ((ilim_detail.traits PixelSrc).bits_a ≠ 0 → (ilim_detail.traits PixelDst).bits_a ≠ 0 →
      v ≤ 2 ^ (ilim_detail.traits PixelSrc).bits_a - 1 →
      ilim_detail.assign_a PixelSrc PixelDst { src with a := some v } dst
        = some { dst with a := some (ilim_detail.scaled (ilim_detail.traits PixelSrc).bits_a
            (ilim_detail.traits PixelDst).bits_a v) }) :=
  ⟨fun s d hw => scaled_props s d v w hvw hw,
    assign_r_scaled PixelSrc PixelDst src dst v,
    assign_g_scaled PixelSrc PixelDst src dst v,
    assign_b_scaled PixelSrc PixelDst src dst v,
    assign_a_scaled PixelSrc PixelDst src dst v⟩

theorem C24_channel_conversion_bounded_monotone_witness :
    (200 : Nat) ≤ 255 ∧
      ilim_detail.assign_r ilim.PixelFormat.R8 ilim.PixelFormat.R16
          { r := some 200, g := none, b := none, a := none }
          { r := none, g := none, b := none, a := none }
        = some { r := some (ilim_detail.scaled 8 16 200), g := none, b := none, a := none } ∧
      ilim_detail.scaled 8 16 200 = 51400 ∧
      ilim_detail.scaled 8 16 255 ≤ 2 ^ 16 - 1 ∧
      ilim_detail.scaled 8 16 200 ≤ ilim_detail.scaled 8 16 255 :=
  ⟨by decide,
    (C24_channel_conversion_bounded_monotone ilim.PixelFormat.R8 ilim.PixelFormat.R16
      { r := none, g := none, b := none, a := none }
      { r := none, g := none, b := none, a := none } 200 255 (by decide)).2.1
        (by decide) (by decide) (by decide),
    by decide,
    ((C24_channel_conversion_bounded_monotone ilim.PixelFormat.R8 ilim.PixelFormat.R16
      { r := none, g := none, b := none, a := none }
      { r := none, g := none, b := none, a := none } 200 255 (by decide)).1 8 16
        (by decide)).1,
    ((C24_channel_conversion_bounded_monotone ilim.PixelFormat.R8 ilim.PixelFormat.R16
      { r := none, g := none, b := none, a := none }
      { r := none, g := none, b := none, a := none } 200 255 (by decide)).1 8 16
        (by decide)).2.1⟩

theorem C25_conv_pixels_preserves_witness :
    (∀ p ∈ [({ r := some 1, g := some 2, b := some 3, a := none } : ilim.Pixel),
        { r := some 255, g := some 0, b := some 7, a := none }],
      ilim_detail.pixel_ok ilim.PixelFormat.RGB8 p = true) ∧
    (∃ out,
      ilim_detail.conv_pixels ilim.PixelFormat.RGB8 ilim.PixelFormat.RGB8
          [{ r := some 1, g := some 2, b := some 3, a := none },
            { r := some 255, g := some 0, b := some 7, a := none }]
          [{ r := some 9, g := some 9, b := some 9, a := none }] = some out ∧
      out = [{ r := some 1, g := some 2, b := some 3, a := none },
            { r := some 255, g := some 0, b := some 7, a := none }]) ∧
    ilim_detail.conv_pixels ilim.PixelFormat.RGB8 ilim.PixelFormat.RGBA8
        [{ r := some 1, g := some 2, b := some 3, a := none },
          { r := some 255, g := some 0, b := some 7, a := none }]
        [{ r := some 9, g := some 9, b := some 9, a := some 9 }]
      = some [{ r := some 1, g := some 2, b := some 3, a := some 1 },
          { r := some 255, g := some 0, b := some 7, a := some 1 }] :=
  have h : ∀ p ∈ [({ r := some 1, g := some 2, b := some 3, a := none } : ilim.Pixel),
      { r := some 255, g := some 0, b := some 7, a := none }],
      ilim_detail.pixel_ok ilim.PixelFormat.RGB8 p = true := by decide
  ⟨h,
    (C25_conv_pixels_preserves ilim.PixelFormat.RGB8 ilim.PixelFormat.RGB8 _
      [{ r := some 9, g := some 9, b := some 9, a := none }] h).imp
        (fun _ hout => ⟨hout.1, hout.2.2.2.2 rfl⟩),
    by decide⟩
